import Mathlib

/-!
Formal model of the data-transformation pipeline in `app.py` of the
repository `weirdaxe/hungary_election_scrape` (Hungary 2022 parliamentary
election polling-station scraper), together with proofs settling the
frozen claims C1..C10 about its specification.

Modelling conventions:
* Python strings are modelled as `String`/`List Char`; `str.lower`,
  `str.upper` and `str.title` are modelled at ASCII precision (the ASCII
  case mapping), which agrees with Python on every string these claims
  evaluate case mapping on (the curated tables' accented characters are
  already upper-case and are fixed points of `upper` in both semantics).
* Python ints/floats appearing as data are modelled as `Int` (the float
  fields are only stored, never computed with).
* `pandas` dataframes are modelled as a list of rows, each row an
  association list from column name to cell value; `NaN`/missing cells
  are modelled as absence of the key.  Operations (`merge`,
  `pivot_table`, column selection, `rename`) are modelled on that
  representation; a pandas operation that raises (e.g. `merge` whose
  `on` columns are missing from one side, as happens with an empty,
  column-less frame) is modelled as `Option.none`.
* The `while "__" in s` loop of `slugify` is modelled with explicit fuel
  `s.length`: each iteration of the source loop strictly decreases the
  length, so `s.length` iterations always reach the loop's exit
  condition (proved below as `hasDunder_collapseUnders`).
* Note: line 496 of `app.py` is missing the closing parenthesis of
  `df_results.rename(columns=COLUMN_RENAME_MAP`; the model applies the
  evidently intended rename (the immediately following `return` line
  fixes the intent unambiguously).
-/

/- ------------------------------------------------------------------ -/
/- Python string helpers over `List Char`                             -/
/- ------------------------------------------------------------------ -/

/-- Remove trailing characters satisfying `p` (the tail half of
`str.strip`). -/
def dropTrail (p : Char → Bool) : List Char → List Char
  | [] => []
  | c :: t =>
    match dropTrail p t with
    | [] => if p c then [] else [c]
    | r => c :: r

/-- Python `str.strip(chars)`: remove leading and trailing characters
satisfying `p`. -/
def stripBoth (p : Char → Bool) (s : List Char) : List Char :=
  dropTrail p (s.dropWhile p)

/-- ASCII lower-casing of one character (model of Python `str.lower`
restricted to ASCII; non-ASCII characters are unchanged). -/
def lowerCh (c : Char) : Char :=
  if 65 ≤ c.toNat ∧ c.toNat ≤ 90 then Char.ofNat (c.toNat + 32) else c

/-- ASCII upper-casing of one character (model of Python `str.upper`
restricted to ASCII). -/
def upperCh (c : Char) : Char :=
  if 97 ≤ c.toNat ∧ c.toNat ≤ 122 then Char.ofNat (c.toNat - 32) else c

/-- ASCII upper-case test. -/
def isUpperCh (c : Char) : Bool := 65 ≤ c.toNat && c.toNat ≤ 90

/-- ASCII alphabetic test (stands in for Python's "cased character" in
the `str.title` model; exact on the ASCII strings it is applied to). -/
def isAlphaCh (c : Char) : Bool :=
  (65 ≤ c.toNat && c.toNat ≤ 90) || (97 ≤ c.toNat && c.toNat ≤ 122)

/-- One pass of Python `s.replace("__", "_")`: left-to-right,
non-overlapping. -/
def replDunder : List Char → List Char
  | [] => []
  | [c] => [c]
  | c :: d :: t =>
    if c = '_' ∧ d = '_' then '_' :: replDunder t
    else c :: replDunder (d :: t)

/-- Python `"__" in s`. -/
def hasDunder : List Char → Bool
  | [] => false
  | [_] => false
  | c :: d :: t => if c = '_' ∧ d = '_' then true else hasDunder (d :: t)

/-- Fuelled form of the `while "__" in s: s = s.replace("__", "_")`
loop. -/
def collapseFuel : Nat → List Char → List Char
  | 0, s => s
  | n + 1, s => if hasDunder s then collapseFuel n (replDunder s) else s

/-- The `while "__" in s` loop of `slugify`; `s.length` fuel always
suffices because each pass strictly shrinks the string. -/
def collapseUnders (s : List Char) : List Char := collapseFuel s.length s

/-- The characters `slugify` replaces by `"_"` (space, hyphen, slash,
parentheses, right single quote, apostrophe, double low-9 quote, right
double quote). -/
def SUB_CHARS : List Char :=
  [' ', '-', '/', '(', ')', Char.ofNat 8217, Char.ofNat 39,
   Char.ofNat 8222, Char.ofNat 8221]

/-- The characters `slugify` strips outright. -/
def DEL_CHARS : List Char := [',', '.', ':', ';']

/-- The normalisation core of `slugify` (everything before the
`or "unknown"` fallback): strip, lower, replace punctuation by `_`,
delete the narrow punctuation set, collapse `__` runs, strip `_`. -/
def slugCore (s : List Char) : List Char :=
  let s1 := (stripBoth Char.isWhitespace s).map lowerCh
  let s2 := SUB_CHARS.foldl
    (fun acc ch => acc.map (fun c => if c = ch then '_' else c)) s1
  let s3 := DEL_CHARS.foldl
    (fun acc ch => acc.filter (fun c => decide (c ≠ ch))) s2
  let s4 := collapseUnders s3
  stripBoth (fun c => decide (c = '_')) s4

/-- `slugify` of `app.py` (input `Option` models Python `None`). -/
def slugify : Option (List Char) → List Char
  | Option.none => ("unknown").data
  | some s =>
    let r := slugCore s
    if r = [] then ("unknown").data else r

/-- `slugify` at `String` level (as used on canonical party names). -/
def slugifyStr (s : String) : String := String.mk (slugify (some s.data))

/- ------------------------------------------------------------------ -/
/- Party / list name normalisation                                    -/
/- ------------------------------------------------------------------ -/

/-- Python `str.upper` (ASCII model). -/
def pyUpper (s : List Char) : List Char := s.map upperCh

/-- Python `str.strip()` with no argument. -/
def pyStrip (s : List Char) : List Char := stripBoth Char.isWhitespace s

/-- Does the second list start with the first? -/
def leadsWith : List Char → List Char → Bool
  | [], _ => true
  | _ :: _, [] => false
  | a :: p, b :: l => decide (a = b) && leadsWith p l

/-- Python `needle in haystack` on strings (contiguous subsequence). -/
def containsSeq (n : List Char) : List Char → Bool
  | [] => n.isEmpty
  | c :: t => leadsWith n (c :: t) || containsSeq n t

/-- `String`-level `leadsWith` (used to model `str.startswith`). -/
def leadsB (p s : String) : Bool := leadsWith p.data s.data

/-- Python `str.title` (ASCII model): capitalise the first alphabetic
character of each alphabetic run, lower-case the rest. The boolean
argument records whether the previous character was alphabetic. -/
def pyTitle : List Char → Bool → List Char
  | [], _ => []
  | c :: t, prev =>
    (if isAlphaCh c then (if prev then lowerCh c else upperCh c) else c)
      :: pyTitle t (isAlphaCh c)

/-- `PARTY_NAME_MAP` of `app.py` (a Python dict with distinct keys,
modelled as an association list in source order). -/
def PARTY_NAME_MAP : List (String × String) :=
  [("DK-JOBBIK-MOMENTUM-MSZP-LMP-PÁRBESZÉD", "United for Hungary"),
   ("FIDESZ-KDNP", "Fidesz"),
   ("ORÖ", "Ruthenians"),
   ("BOLGÁR ORSZÁGOS ÖNKORMÁNYZAT", "Bulgarians"),
   ("OHÖ", "Croatians"),
   ("MAGYARORSZÁGI GÖRÖGÖK ORSZÁGOS", "Greeks"),
   ("UOÖ", "Ukrainians"),
   ("OÖÖ", "Armenians"),
   ("MNOÖ", "Germans"),
   ("OLÖ", "Poles"),
   ("ORSZÁGOS SZLOVÁK ÖNK", "Slovaks"),
   ("MI HAZÁNK", "Our Homeland"),
   ("MKKP", "Two-Tailed Dog"),
   ("MEMO", "Solution"),
   ("NORMÁLIS PÁRT", "Normal Life")]

/-- `MINORITY_KEYWORDS` of `app.py`. The source dict literal writes the
key `"UKRÁN"` twice with the same value; the resulting Python dict has
the eleven distinct keys below in first-insertion order. -/
def MINORITY_KEYWORDS : List (String × String) :=
  [("NÉMET", "Germans"),
   ("SZLOVÁK", "Slovaks"),
   ("BOLGÁR", "Bulgarians"),
   ("GÖRÖG", "Greeks"),
   ("UKRÁN", "Ukrainians"),
   ("HORVÁT", "Croatians"),
   ("SZERB", "Serbs"),
   ("ROMA", "Roma"),
   ("SZLOVÉN", "Slovenes"),
   ("LENGYEL", "Poles"),
   ("ÖRMÉNY", "Armenians")]

/-- Dict lookup on an association list (first match; all dict literals
modelled this way have distinct keys). -/
def findAssoc (k : String) : List (String × String) → Option String
  | [] => Option.none
  | p :: t => if p.1 = k then some p.2 else findAssoc k t

/-- `canonical_party_name` of `app.py`. -/
def canonical_party_name (raw : String) : String :=
  if raw = "" then "Unknown"
  else
    let key := String.mk (pyUpper (pyStrip raw.data))
    match findAssoc key PARTY_NAME_MAP with
    | some v => v
    | Option.none =>
      match MINORITY_KEYWORDS.find? (fun p => containsSeq p.1.data key.data) with
      | some p => p.2
      | Option.none => String.mk (pyTitle raw.data false)

/- ------------------------------------------------------------------ -/
/- Constituency grouping engine (`build_constituency_id_mapping`)     -/
/- ------------------------------------------------------------------ -/

/-- One entry of the candidate roster (`EgyeniJeloltek.json` list).
`maz`, `evk`, `ej_id` are accessed with `c[...]` in the source (required);
`jlcs_nev` and `neve` with `c.get(...)` (optional). Scalar codes are
modelled as `Nat`, the constituency code as `String`, matching how the
pipeline later compares it with station `evk` values. -/
structure Cand where
  maz : Nat
  evk : String
  ej_id : Nat
  jlcs_nev : Option String
  neve : Option String
deriving DecidableEq

/-- Code-point lexicographic comparison of strings (Python `str` `<=`). -/
def strLeB : List Char → List Char → Bool
  | [], _ => true
  | _ :: _, [] => false
  | x :: xs, y :: ys =>
    if x.toNat < y.toNat then true
    else if y.toNat < x.toNat then false
    else strLeB xs ys

/-- Python tuple comparison on `(maz, evk)` keys. -/
def keyLeB (a b : Nat × String) : Bool :=
  if a.1 < b.1 then true
  else if b.1 < a.1 then false
  else strLeB a.2.data b.2.data

/-- `keyLeB` as a relation, for `insertionSort`. -/
def keyLeP (a b : Nat × String) : Prop := keyLeB a b = true

instance keyLeP.decRel : DecidableRel keyLeP := fun a b => by
  unfold keyLeP; infer_instance

/-- The set of observed `(maz, evk)` keys of the roster (the key set of
the `cand_by_const` defaultdict; deduplicated, order immaterial because
it is sorted next). -/
def obsKeys (l : List Cand) : List (Nat × String) :=
  (l.map (fun c => (c.maz, c.evk))).dedup

/-- `sorted(cand_by_const.items())` key order. -/
def sortedKeys (l : List Cand) : List (Nat × String) :=
  List.insertionSort keyLeP (obsKeys l)

/-- All candidate ids registered for key `k` (the contents of the set
`cand_by_const[k]`, as a list with possible duplicates). -/
def eids (l : List Cand) (k : Nat × String) : List Nat :=
  l.filterMap (fun c => if (c.maz, c.evk) = k then some c.ej_id else Option.none)

/-- Python `sorted` on a list of ints. -/
def natSort (l : List Nat) : List Nat := List.insertionSort (· ≤ ·) l

/-- `tuple(sorted(ej_set))`: the CandidateSetSignature of key `k`. -/
def sigOf (l : List Cand) (k : Nat × String) : List Nat :=
  natSort ((eids l k).dedup)

/-- Lookup in the `candidate_sets` dict (signature → id). -/
def findSig (s : List Nat) : List (List Nat × Nat) → Option Nat
  | [] => Option.none
  | p :: t => if p.1 = s then some p.2 else findSig s t

/-- The id-assignment loop of `build_constituency_id_mapping`: iterate
keys in sorted order, allocate a fresh id the first time a signature is
seen, and record key ↦ id. Returns `(constituency_id_by_const,
candidate_sets, next_id)`. -/
def assignIds (sig : Nat × String → List Nat) :
    List (Nat × String) → List (List Nat × Nat) → Nat →
    List ((Nat × String) × Nat) × List (List Nat × Nat) × Nat
  | [], cs, nid => ([], cs, nid)
  | k :: ks, cs, nid =>
    match findSig (sig k) cs with
    | some i =>
      let r := assignIds sig ks cs nid
      ((k, i) :: r.1, r.2)
    | Option.none =>
      let r := assignIds sig ks (cs ++ [(sig k, nid)]) (nid + 1)
      ((k, nid) :: r.1, r.2)

/-- The `constituency_id_by_const` mapping, as the association list
produced by iterating `sorted(cand_by_const.items())` with `next_id`
starting at 1. -/
def constituency_id_by_const (l : List Cand) : List ((Nat × String) × Nat) :=
  (assignIds (sigOf l) (sortedKeys l) [] 1).1

/-- Lookup of a key's assigned ConstituencyId. -/
def cidLookup (k : Nat × String) : List ((Nat × String) × Nat) → Option Nat
  | [] => Option.none
  | p :: t => if p.1 = k then some p.2 else cidLookup k t

/-- `constituency_id_by_const[(maz, evk)]` as a partial function. -/
def cid (l : List Cand) (k : Nat × String) : Option Nat :=
  cidLookup k (constituency_id_by_const l)

/- ------------------------------------------------------------------ -/
/- DataFrame model                                                    -/
/- ------------------------------------------------------------------ -/

/-- A dataframe cell value: the JSON scalars the pipeline stores
(numbers as `Int`, strings). -/
inductive Val where
  | vi : Int → Val
  | vs : String → Val
deriving DecidableEq

/-- A dataframe row: a Python dict, as an association list in insertion
order. A missing key models a `NaN`/absent cell. -/
abbrev Row := List (String × Val)

/-- A pandas DataFrame: its column labels and its rows. -/
structure DF where
  cols : List String
  rows : List Row
deriving DecidableEq

/-- Helper of `dedupFirst`: drop elements already in `seen`. -/
def dedupFirstAux {α : Type} [DecidableEq α] (seen : List α) : List α → List α
  | [] => []
  | a :: t =>
    if a ∈ seen then dedupFirstAux seen t
    else a :: dedupFirstAux (a :: seen) t

/-- First-occurrence deduplication (the order pandas unions dict keys
into columns). -/
def dedupFirst {α : Type} [DecidableEq α] (l : List α) : List α :=
  dedupFirstAux [] l

/-- Cell access: first binding of column `c` in row `r`. -/
def rget (r : Row) (c : String) : Option Val :=
  match r with
  | [] => Option.none
  | p :: t => if p.1 = c then some p.2 else rget t c

/-- The keys of a row. -/
def rkeys (r : Row) : List String := r.map Prod.fst

/-- `pd.DataFrame(list_of_dicts)`: columns are the union of the rows'
keys in first-appearance order. -/
def dfOfRows (rows : List Row) : DF :=
  ⟨dedupFirst (rows.flatMap rkeys), rows⟩

/-- Do two rows agree on all `on` columns? (the join condition). -/
def rowMatches (onc : List String) (lr rr : Row) : Bool :=
  onc.all (fun c => decide (rget lr c = rget rr c))

/-- Drop the `on` columns from a (right-side) row. -/
def stripOn (onc : List String) (r : Row) : Row :=
  r.filter (fun p => decide (p.1 ∉ onc))

/-- `left.merge(right, on=on, how="left")`. Unmatched left rows are
kept with the right columns absent; pandas raises a `KeyError` when an
`on` column is missing from either side (modelled as `Option.none`).
No non-key column name ever occurs on both sides in this pipeline, so
the `_x`/`_y` suffixing of overlapping names never fires and is not
modelled. -/
def mergeDF (l r : DF) (onc : List String) : Option DF :=
  if onc.all (fun c => decide (c ∈ l.cols)) && onc.all (fun c => decide (c ∈ r.cols)) then
    some ⟨l.cols ++ r.cols.filter (fun c => decide (c ∉ onc)),
          l.rows.flatMap (fun lr =>
            let ms := r.rows.filter (fun rr => rowMatches onc lr rr)
            if ms.isEmpty then [lr] else ms.map (fun rr => lr ++ stripOn onc rr))⟩
  else Option.none

/-- `df[cs]`: column projection (`cs` is always pre-filtered to existing
columns at the call site, mirroring line 458 of the source). -/
def selectCols (df : DF) (cs : List String) : DF :=
  ⟨cs, df.rows.map (fun r => cs.filterMap (fun c => (rget r c).map (fun v => (c, v))))⟩

/-- `df.rename(columns=m)` on one label. -/
def renameCol (m : List (String × String)) (c : String) : String :=
  (findAssoc c m).getD c

/-- `df.rename(columns=m)` on one row. -/
def renameRow (m : List (String × String)) (r : Row) : Row :=
  r.map (fun p => (renameCol m p.1, p.2))

/-- `df.rename(columns=m)`. -/
def renameDF (m : List (String × String)) (df : DF) : DF :=
  ⟨df.cols.map (renameCol m), df.rows.map (renameRow m)⟩

/-- The distinct labels of the `columns=` field occurring in the long
rows (the value columns of the pivoted frame). -/
def pivotColNames (long : List Row) (colc : String) : List String :=
  dedupFirst (long.filterMap (fun r =>
    match rget r colc with
    | some (Val.vs s) => some s
    | _ => Option.none))

/-- The index-key tuple of a long row. -/
def pivotKeyOf (idx : List String) (r : Row) : List (Option Val) :=
  idx.map (rget r)

/-- The distinct index-key tuples of the long rows (one output row
each). -/
def pivotKeys (long : List Row) (idx : List String) : List (List (Option Val)) :=
  dedupFirst (long.map (pivotKeyOf idx))

/-- The long rows contributing to cell `(k, c)` of the pivot. -/
def pivotMatches (long : List Row) (idx : List String) (colc : String)
    (k : List (Option Val)) (c : String) : List Row :=
  long.filter (fun r =>
    decide (pivotKeyOf idx r = k) && decide (rget r colc = some (Val.vs c)))

/-- The `values=` entries of a group. -/
def valsOf (rs : List Row) (valc : String) : List Val :=
  rs.filterMap (fun r => rget r valc)

/-- `aggfunc="sum"` (the values are always `Val.vi` by construction). -/
def aggSum (vs : List Val) : Val :=
  Val.vi ((vs.map (fun v => match v with | Val.vi n => n | Val.vs _ => 0)).sum)

/-- `aggfunc="first"`. -/
def aggFirst (vs : List Val) : Val :=
  match vs with
  | [] => Val.vi 0
  | v :: _ => v

/-- One cell of the pivoted frame: the aggregate of the matching long
rows, absent (`NaN`) when no long row matches. -/
def pivotCell (agg : List Val → Val) (long : List Row) (idx : List String)
    (colc valc : String) (k : List (Option Val)) (c : String) : Option Val :=
  let ms := pivotMatches long idx colc k c
  if ms.isEmpty then Option.none else some (agg (valsOf ms valc))

/-- One output row of `pivot_table(...).reset_index()`: the index cells
followed by the aggregated value cells. -/
def pivotRowOf (agg : List Val → Val) (long : List Row) (idx : List String)
    (colc valc : String) (k : List (Option Val)) : Row :=
  (idx.zip k).filterMap (fun p => p.2.map (fun v => (p.1, v)))
    ++ (pivotColNames long colc).filterMap
        (fun c => (pivotCell agg long idx colc valc k c).map (fun v => (c, v)))

/-- `long.pivot_table(index=idx, columns=colc, values=valc,
aggfunc=agg).reset_index()` (column/row order of pandas' sorted output
differs only in ordering, which no claim depends on). -/
def pivot_table (long : List Row) (idx : List String) (colc valc : String)
    (agg : List Val → Val) : DF :=
  ⟨idx ++ pivotColNames long colc,
   (pivotKeys long idx).map (pivotRowOf agg long idx colc valc)⟩

/- ------------------------------------------------------------------ -/
/- Station / result aggregator (`build_df_from_all_pairs`)            -/
/- ------------------------------------------------------------------ -/

/-- One row of the `Telepulesek.json` reference list (only `maz`/`taz`
are read). -/
structure TelepRow where
  maz : Nat
  taz : Nat
deriving DecidableEq

/-- A station entry of a `Szavazokorok-maz-taz.json` document, as
parsed: `sorszam` is accessed with `sz["sorszam"]` (required, hence not
optional here — ill-typed documents are treated in the field-level
ingestion model below), every other field with `sz.get(..., default)`. -/
structure Station where
  sorszam : Nat
  szk_nev : Option String
  evk : Option String
  evk_nev : Option String
  cim : Option String
  akadaly : Option Int
  szamlKijelolt : Option Int
  atjKijelolt : Option Int
  telepSzintu : Option Int
  letszam : List (String × Int)
deriving DecidableEq

/-- A `tetelek` line item of an individual (`egyeni`) ballot record. -/
structure Tetel where
  ej_id : Nat
  szavazat : Option Int
deriving DecidableEq

/-- A `tetelek` line item of a list (`listas`) ballot record. -/
structure LTetel where
  tl_id : Nat
  szavazat : Option Int
deriving DecidableEq

/-- The `egyeni_jkv` payload of a results record. -/
structure EgyJkv where
  vp_osszes : Option Int
  szavazott_osszesen : Option Int
  szavazott_osszesen_szaz : Option Int
  szl_ervenyes : Option Int
  szl_ervenytelen : Option Int
  tetelek : Option (List Tetel)
deriving DecidableEq

/-- The `listas_jkv` payload of a results record. -/
structure ListJkv where
  vp_osszes : Option Int
  szavazott_osszesen : Option Int
  szavazott_osszesen_szaz : Option Int
  szl_ervenyes : Option Int
  szl_ervenytelen : Option Int
  tetelek : Option (List LTetel)
deriving DecidableEq

/-- One record of a `SzavkorJkv-maz-taz.json` document's `list`. -/
structure JkvRec where
  sorsz : Nat
  maz : Nat
  taz : Nat
  egyeni_jkv : EgyJkv
  listas_jkv : ListJkv
deriving DecidableEq

/-- One entry of `ListakEsJeloltek.json` (`tl_id` required, the rest
read with `.get`). -/
structure Lista where
  tl_id : Nat
  jlcs_nev : Option String
  lista_tip : Option String
deriving DecidableEq

/-- Python tuple comparison on `(maz, taz)` pairs. -/
def pairLeB (a b : Nat × Nat) : Bool :=
  if a.1 < b.1 then true
  else if b.1 < a.1 then false
  else a.2 ≤ b.2

/-- `pairLeB` as a relation, for `insertionSort`. -/
def pairLeP (a b : Nat × Nat) : Prop := pairLeB a b = true

instance pairLeP.decRel : DecidableRel pairLeP := fun a b => by
  unfold pairLeP; infer_instance

/-- `sorted({(row["maz"], row["taz"]) for row in telep})` (line 252;
the model has no test-mode truncation). -/
def pairsOf (telep : List TelepRow) : List (Nat × Nat) :=
  List.insertionSort pairLeP ((telep.map (fun r => (r.maz, r.taz))).dedup)

/-- The per-pair station-document fetch (`fetch_json_with_log` of the
`Szavazokorok` URL, composed with the `data`/`szavazokorok` unwrapping
of lines 282–283); `Option.none` is the fetch-failure value. -/
abbrev SzkFetch := Nat → Nat → Option (List Station)

/-- The per-pair results-document fetch (`SzavkorJkv` URL, `list`
unwrapping of line 320). -/
abbrev JkvFetch := Nat → Nat → Option (List JkvRec)

/-- One `szk_rows` entry (lines 292–308): key fields, defaulted station
fields, then the flattened `letszam` mapping. -/
def szkRowOf (maz taz : Nat) (st : Station) : Row :=
  [("maz", Val.vi maz), ("taz", Val.vi taz), ("sorsz", Val.vi st.sorszam),
   ("szk_nev", Val.vs (st.szk_nev.getD "")),
   ("evk", Val.vs (st.evk.getD "")),
   ("evk_nev", Val.vs (st.evk_nev.getD "")),
   ("cim", Val.vs (st.cim.getD "")),
   ("akadaly", Val.vi (st.akadaly.getD 0)),
   ("szamlKijelolt", Val.vi (st.szamlKijelolt.getD 0)),
   ("atjKijelolt", Val.vi (st.atjKijelolt.getD 0)),
   ("telepSzintu", Val.vi (st.telepSzintu.getD 0))]
    ++ st.letszam.map (fun p => ("letszam_" ++ p.1, Val.vi p.2))

/-- The accumulated `szk_rows` list: stations of every pair whose
station document was fetched (appended before the results fetch, so
present even when the results fetch then fails). -/
def stationRows (pairs : List (Nat × Nat)) (szkF : SzkFetch) : List Row :=
  pairs.flatMap (fun p =>
    match szkF p.1 p.2 with
    | Option.none => []
    | some szs => szs.map (szkRowOf p.1 p.2))

/-- `evk_map.get(sorsz, "")` where `evk_map[sz["sorszam"]] =
sz.get("evk", "")` for each station (dict: a later station with the
same `sorszam` wins). -/
def evkLookup (szs : List Station) (n : Nat) : String :=
  match szs.reverse.find? (fun s => decide (s.sorszam = n)) with
  | some s => s.evk.getD ""
  | Option.none => ""

/-- The `key` dict of lines 324–329. -/
def keyRowOf (szs : List Station) (rec : JkvRec) : Row :=
  [("maz", Val.vi rec.maz), ("taz", Val.vi rec.taz),
   ("sorsz", Val.vi rec.sorsz), ("evk", Val.vs (evkLookup szs rec.sorsz))]

/-- One `base_rows` entry (lines 333–345). -/
def baseRowOf (szs : List Station) (rec : JkvRec) : Row :=
  keyRowOf szs rec ++
  [("vp_osszes_egyeni", Val.vi (rec.egyeni_jkv.vp_osszes.getD 0)),
   ("szavazott_osszesen_egyeni", Val.vi (rec.egyeni_jkv.szavazott_osszesen.getD 0)),
   ("szavazott_osszesen_szaz_egyeni", Val.vi (rec.egyeni_jkv.szavazott_osszesen_szaz.getD 0)),
   ("szl_ervenyes_egyeni", Val.vi (rec.egyeni_jkv.szl_ervenyes.getD 0)),
   ("szl_ervenytelen_egyeni", Val.vi (rec.egyeni_jkv.szl_ervenytelen.getD 0)),
   ("vp_osszes_lista", Val.vi (rec.listas_jkv.vp_osszes.getD 0)),
   ("szavazott_osszesen_lista", Val.vi (rec.listas_jkv.szavazott_osszesen.getD 0)),
   ("szavazott_osszesen_szaz_lista", Val.vi (rec.listas_jkv.szavazott_osszesen_szaz.getD 0)),
   ("szl_ervenyes_lista", Val.vi (rec.listas_jkv.szl_ervenyes.getD 0)),
   ("szl_ervenytelen_lista", Val.vi (rec.listas_jkv.szl_ervenytelen.getD 0))]

/-- The accumulated `base_rows` list: records of pairs where both
fetches succeeded (a failed results fetch skips the pair after the
stations were already ingested). -/
def baseRows (pairs : List (Nat × Nat)) (szkF : SzkFetch) (jkvF : JkvFetch) :
    List Row :=
  pairs.flatMap (fun p =>
    match szkF p.1 p.2 with
    | Option.none => []
    | some szs =>
      match jkvF p.1 p.2 with
      | Option.none => []
      | some recs => recs.map (baseRowOf szs))

/-- `cand_meta.get(ej_id, {}).get("jlcs_nev", "UNKNOWN")`, where
`cand_meta` is the dict comprehension of lines 235–240 (a later roster
entry with the same `ej_id` wins). -/
def candJlcsOf (egyeni : List Cand) (eid : Nat) : String :=
  match egyeni.reverse.find? (fun c => decide (c.ej_id = eid)) with
  | some c => c.jlcs_nev.getD "UNKNOWN"
  | Option.none => "UNKNOWN"

/-- The `votes_individual_party_{slug}` column of one individual-ballot
line item (lines 352–356). -/
def candColOf (egyeni : List Cand) (eid : Nat) : String :=
  "votes_individual_party_" ++ slugifyStr (canonical_party_name (candJlcsOf egyeni eid))

/-- One `cand_party_rows` entry (lines 358–364). -/
def candRowOf (egyeni : List Cand) (key : Row) (t : Tetel) : Row :=
  key ++ [("party_col", Val.vs (candColOf egyeni t.ej_id)),
          ("votes", Val.vi (t.szavazat.getD 0))]

/-- The accumulated `cand_party_rows` list. -/
def candRows (egyeni : List Cand) (pairs : List (Nat × Nat))
    (szkF : SzkFetch) (jkvF : JkvFetch) : List Row :=
  pairs.flatMap (fun p =>
    match szkF p.1 p.2 with
    | Option.none => []
    | some szs =>
      match jkvF p.1 p.2 with
      | Option.none => []
      | some recs => recs.flatMap (fun rec =>
          (rec.egyeni_jkv.tetelek.getD []).map (candRowOf egyeni (keyRowOf szs rec))))

/-- `list_meta.get(tl_id, {})` field reads (lines 242–248, 369–371):
the pair `(jlcs_nev, lista_tip)` with their defaults. -/
def listMetaOf (listak : List Lista) (tid : Nat) : String × String :=
  match listak.reverse.find? (fun l => decide (l.tl_id = tid)) with
  | some l => (l.jlcs_nev.getD "UNKNOWN", l.lista_tip.getD "X")
  | Option.none => ("UNKNOWN", "X")

/-- The `type_map` dict of line 372. -/
def TYPE_MAP : List (String × String) :=
  [("K", "comp"), ("O", "party"), ("N", "minority")]

/-- `type_map.get(lista_tip, lista_tip.lower())`. -/
def listTypeOf (tip : String) : String :=
  (findAssoc tip TYPE_MAP).getD (String.mk (tip.data.map lowerCh))

/-- The `votes_list_{type}_{slug}` column of one list-ballot line item
(lines 369–377). -/
def listColOf (listak : List Lista) (tid : Nat) : String :=
  let m := listMetaOf listak tid
  "votes_list_" ++ listTypeOf m.2 ++ "_" ++ slugifyStr (canonical_party_name m.1)

/-- One `list_rows` entry (lines 379–385). -/
def listRowOf (listak : List Lista) (key : Row) (t : LTetel) : Row :=
  key ++ [("list_col", Val.vs (listColOf listak t.tl_id)),
          ("votes", Val.vi (t.szavazat.getD 0))]

/-- The accumulated `list_rows` list. -/
def listRows (listak : List Lista) (pairs : List (Nat × Nat))
    (szkF : SzkFetch) (jkvF : JkvFetch) : List Row :=
  pairs.flatMap (fun p =>
    match szkF p.1 p.2 with
    | Option.none => []
    | some szs =>
      match jkvF p.1 p.2 with
      | Option.none => []
      | some recs => recs.flatMap (fun rec =>
          (rec.listas_jkv.tetelek.getD []).map (listRowOf listak (keyRowOf szs rec))))

/-- One `cand_meta_rows` entry of `build_constituency_id_mapping`
(lines 179–192). -/
def candMetaRowOf (c : Cand) : Row :=
  let slug := slugifyStr (canonical_party_name (c.jlcs_nev.getD "UNKNOWN"))
  [("maz", Val.vi c.maz), ("evk", Val.vs c.evk),
   ("party_slug", Val.vs slug),
   ("col", Val.vs ("candidate_" ++ slug ++ "_name")),
   ("candidate_name", Val.vs (c.neve.getD ""))]

/-- The `const_rows` list (lines 205–208): one row per observed key in
the dict's (sorted-key) insertion order. -/
def constIdRows (egyeni : List Cand) : List Row :=
  (constituency_id_by_const egyeni).map (fun p =>
    [("maz", Val.vi p.1.1), ("evk", Val.vs p.1.2),
     ("constituency_id", Val.vi p.2)])

/-- `build_constituency_id_mapping` as a dataframe producer (lines
205–222): the id rows left-merged with the pivoted candidate-name
table. With an empty roster the id frame has no columns and the merge
raises (`Option.none`), as pandas does. -/
def build_constituency_id_mapping (egyeni : List Cand) : Option DF :=
  let df_const_ids := dfOfRows (constIdRows egyeni)
  let cand_meta_rows := egyeni.map candMetaRowOf
  let df_const_cands_wide :=
    if cand_meta_rows.isEmpty then DF.mk ["maz", "evk"] []
    else pivot_table cand_meta_rows ["maz", "evk"] "col" "candidate_name" aggFirst
  mergeDF df_const_ids df_const_cands_wide ["maz", "evk"]

/-- The join key of lines 396, 407, 419, 424, 429. -/
def KEY4 : List String := ["maz", "taz", "sorsz", "evk"]

/-- The fixed head of `info_cols` (lines 432–444). -/
def INFO_HEAD : List String :=
  ["maz", "taz", "sorsz", "szk_nev", "evk", "evk_nev", "cim",
   "akadaly", "szamlKijelolt", "atjKijelolt", "telepSzintu"]

/-- The fixed tail of `info_cols` (lines 446–457). -/
def INFO_TAIL : List String :=
  ["vp_osszes_egyeni", "szavazott_osszesen_egyeni",
   "szavazott_osszesen_szaz_egyeni", "szl_ervenyes_egyeni",
   "szl_ervenytelen_egyeni", "vp_osszes_lista",
   "szavazott_osszesen_lista", "szavazott_osszesen_szaz_lista",
   "szl_ervenyes_lista", "szl_ervenytelen_lista"]

/-- `info_cols` computed from the merged results columns (lines
432–458): fixed head, the data-driven `letszam_` columns, fixed
turnout tail, all filtered to existing columns. -/
def infoColsOf (cols : List String) : List String :=
  (INFO_HEAD ++ cols.filter (fun c => leadsB "letszam_" c) ++ INFO_TAIL).filter
    (fun c => decide (c ∈ cols))

/-- `COLUMN_RENAME_MAP` of `app.py` (lines 69–97). -/
def COLUMN_RENAME_MAP : List (String × String) :=
  [("szk_nev", "polling_station_name"),
   ("evk", "constituency_code"),
   ("evk_nev", "constituency_name"),
   ("cim", "polling_station_address"),
   ("akadaly", "accessible_for_disabled"),
   ("szamlKijelolt", "designated_counting_station"),
   ("atjKijelolt", "designated_transfer_station"),
   ("telepSzintu", "municipality_level_station"),
   ("letszam_indulo", "electorate_initial"),
   ("letszam_honos", "electorate_resident"),
   ("letszam_atjel", "electorate_transferred_in"),
   ("letszam_atjelInnen", "electorate_transferred_out"),
   ("letszam_osszesen", "electorate_total"),
   ("vp_osszes_egyeni", "eligible_voters_individual"),
   ("szavazott_osszesen_egyeni", "turnout_individual"),
   ("szavazott_osszesen_szaz_egyeni", "turnout_rate_pct_individual"),
   ("szl_ervenyes_egyeni", "valid_votes_individual"),
   ("szl_ervenytelen_egyeni", "invalid_votes_individual"),
   ("vp_osszes_lista", "eligible_voters_list"),
   ("szavazott_osszesen_lista", "turnout_list"),
   ("szavazott_osszesen_szaz_lista", "turnout_rate_pct_list"),
   ("szl_ervenyes_lista", "valid_votes_list"),
   ("szl_ervenytelen_lista", "invalid_votes_list")]

/-- `build_df_from_all_pairs` (lines 225–498), producing
`(df_results, df_info)`. `Option.none` models an uncaught exception
(the only sources of which are the pandas merges); the UI-only
progress/log/sample-capture side effects are not modelled. -/
def build_df_from_all_pairs (telep : List TelepRow) (egyeni : List Cand)
    (listak : List Lista) (szkF : SzkFetch) (jkvF : JkvFetch) :
    Option (DF × DF) :=
  (build_constituency_id_mapping egyeni).bind fun df_constituencies =>
  let pairs := pairsOf telep
  let df_szk := dfOfRows (stationRows pairs szkF)
  let df_base := dfOfRows (baseRows pairs szkF jkvF)
  let cLong := candRows egyeni pairs szkF jkvF
  let df_cand_wide :=
    if cLong.isEmpty then dfOfRows []
    else pivot_table cLong KEY4 "party_col" "votes" aggSum
  let lLong := listRows listak pairs szkF jkvF
  let df_list_wide :=
    if lLong.isEmpty then dfOfRows []
    else pivot_table lLong KEY4 "list_col" "votes" aggSum
  if df_szk.rows.isEmpty then
    some (dfOfRows [], dfOfRows [])
  else
    (mergeDF df_szk df_base KEY4).bind fun m1 =>
    (if df_cand_wide.rows.isEmpty then some m1
     else mergeDF m1 df_cand_wide KEY4).bind fun m2 =>
    (if df_list_wide.rows.isEmpty then some m2
     else mergeDF m2 df_list_wide KEY4).bind fun m3 =>
    let info_cols := infoColsOf m3.cols
    let df_info0 := selectCols m3 info_cols
    (mergeDF m3 df_constituencies ["maz", "evk"]).bind fun df_results =>
    (mergeDF df_info0 df_constituencies ["maz", "evk"]).bind fun df_info1 =>
    some (renameDF COLUMN_RENAME_MAP df_results,
          renameDF COLUMN_RENAME_MAP df_info1)

/- ------------------------------------------------------------------ -/
/- Field-level ingestion (JSON granularity, for the defaulting claim) -/
/- ------------------------------------------------------------------ -/

/-- A parsed JSON value (inside an already successfully fetched and
decoded document). -/
inductive J where
  | jn : Int → J
  | js : String → J
  | ja : List J → J
  | jo : List (String × J) → J

/-- Dict lookup inside a JSON object (`d[k]` / `d.get(k, ...)`). -/
def jget (o : List (String × J)) (k : String) : Option J :=
  match o with
  | [] => Option.none
  | p :: t => if p.1 = k then some p.2 else jget t k

/-- Ingestion of one station entry at JSON granularity (lines 287–308).
`Option.none` models an uncaught exception: `sz["sorszam"]` raises
`KeyError` when the key is absent, and `letszam.items()` raises when a
present `letszam` is not an object; every other field is read with
`sz.get(..., default)` and so defaults instead of failing. -/
def szk_row_of (maz taz : Nat) (sz : List (String × J)) :
    Option (List (String × J)) :=
  match jget sz "sorszam" with
  | Option.none => Option.none
  | some sorsz =>
    let lets : Option (List (String × J)) :=
      match jget sz "letszam" with
      | Option.none => some []
      | some (J.jo l) => some l
      | some _ => Option.none
    match lets with
    | Option.none => Option.none
    | some l =>
      some ([("maz", J.jn maz), ("taz", J.jn taz), ("sorsz", sorsz),
             ("szk_nev", (jget sz "szk_nev").getD (J.js "")),
             ("evk", (jget sz "evk").getD (J.js "")),
             ("evk_nev", (jget sz "evk_nev").getD (J.js "")),
             ("cim", (jget sz "cim").getD (J.js "")),
             ("akadaly", (jget sz "akadaly").getD (J.jn 0)),
             ("szamlKijelolt", (jget sz "szamlKijelolt").getD (J.jn 0)),
             ("atjKijelolt", (jget sz "atjKijelolt").getD (J.jn 0)),
             ("telepSzintu", (jget sz "telepSzintu").getD (J.jn 0))]
        ++ l.map (fun p => ("letszam_" ++ p.1, p.2)))

/-- Ingestion of one results record at JSON granularity (lines
320–345): `rec["sorsz"]`, `rec["maz"]`, `rec["taz"]`,
`rec["egyeni_jkv"]`, `rec["listas_jkv"]` are required (and the two
payloads must be objects for `.get` to work); the ten counters default
to `0`/`0.0`. `evk_value` is the already-computed `evk_map` lookup. -/
def base_row_of (rec : List (String × J)) (evk_value : J) :
    Option (List (String × J)) :=
  match jget rec "sorsz", jget rec "maz", jget rec "taz" with
  | some sorsz, some maz, some taz =>
    match jget rec "egyeni_jkv", jget rec "listas_jkv" with
    | some (J.jo ej), some (J.jo li) =>
      some [("maz", maz), ("taz", taz), ("sorsz", sorsz), ("evk", evk_value),
            ("vp_osszes_egyeni", (jget ej "vp_osszes").getD (J.jn 0)),
            ("szavazott_osszesen_egyeni",
              (jget ej "szavazott_osszesen").getD (J.jn 0)),
            ("szavazott_osszesen_szaz_egyeni",
              (jget ej "szavazott_osszesen_szaz").getD (J.jn 0)),
            ("szl_ervenyes_egyeni", (jget ej "szl_ervenyes").getD (J.jn 0)),
            ("szl_ervenytelen_egyeni",
              (jget ej "szl_ervenytelen").getD (J.jn 0)),
            ("vp_osszes_lista", (jget li "vp_osszes").getD (J.jn 0)),
            ("szavazott_osszesen_lista",
              (jget li "szavazott_osszesen").getD (J.jn 0)),
            ("szavazott_osszesen_szaz_lista",
              (jget li "szavazott_osszesen_szaz").getD (J.jn 0)),
            ("szl_ervenyes_lista", (jget li "szl_ervenyes").getD (J.jn 0)),
            ("szl_ervenytelen_lista",
              (jget li "szl_ervenytelen").getD (J.jn 0))]
    | _, _ => Option.none
  | _, _, _ => Option.none

/-- Ingestion of one individual-ballot line item at JSON granularity
(lines 348–350): `t["ej_id"]` is required, `t.get("szavazat", 0)`
defaults. Returns `(ej_id, votes)`. -/
def cand_tetel_of (t : List (String × J)) : Option (J × J) :=
  match jget t "ej_id" with
  | some eid => some (eid, (jget t "szavazat").getD (J.jn 0))
  | Option.none => Option.none

/-- A pipeline row anchored on an ingested station: its `maz`, `taz`,
`sorsz` and `evk` cells are exactly the key cells of station `st` of
some fetched pair, and none of its keys is literally named
`constituency_code` (so the later rename maps `evk` alone there). -/
def anchoredRow (pairs : List (Nat × Nat)) (sf : SzkFetch) (row : Row) :
    Prop :=
  ∃ p ∈ pairs, ∃ szs, sf p.1 p.2 = some szs ∧ ∃ st ∈ szs,
    rget row "maz" = some (Val.vi p.1) ∧
    rget row "taz" = some (Val.vi p.2) ∧
    rget row "sorsz" = some (Val.vi st.sorszam) ∧
    rget row "evk" = some (Val.vs (st.evk.getD "")) ∧
    ∀ pr ∈ row, pr.1 ≠ "constituency_code"

/-- The station-key cells of a final (renamed) output row: `maz`,
`taz`, `sorsz` keep their names, `evk` is renamed to
`constituency_code`. -/
def outKey (r : Row) : List (Option Val) :=
  [rget r "maz", rget r "taz", rget r "sorsz", rget r "constituency_code"]

/-- The key cells an ingested station contributes to its `szk_rows`
entry. -/
def stKeyOf (maz taz : Nat) (st : Station) : List (Option Val) :=
  [some (Val.vi maz), some (Val.vi taz), some (Val.vi st.sorszam),
   some (Val.vs (st.evk.getD ""))]

/- ------------------------------------------------------------------ -/
/- Lemmas: slugify (C7)                                               -/
/- ------------------------------------------------------------------ -/

theorem replDunder_length : ∀ s : List Char, (replDunder s).length ≤ s.length
  | [] => by simp [replDunder]
  | [c] => by simp [replDunder]
  | c :: d :: t => by
    by_cases h : c = '_' ∧ d = '_'
    · have ih := replDunder_length t
      simp only [replDunder, if_pos h, List.length_cons]
      omega
    · have ih := replDunder_length (d :: t)
      simp only [replDunder, if_neg h, List.length_cons] at ih ⊢
      omega

theorem replDunder_length_lt : ∀ s : List Char, hasDunder s = true →
    (replDunder s).length < s.length
  | [], h => by simp [hasDunder] at h
  | [c], h => by simp [hasDunder] at h
  | c :: d :: t, h => by
    by_cases hcd : c = '_' ∧ d = '_'
    · have ih := replDunder_length t
      simp only [replDunder, if_pos hcd, List.length_cons]
      omega
    · have hdt : hasDunder (d :: t) = true := by
        simpa [hasDunder, if_neg hcd] using h
      have ih := replDunder_length_lt (d :: t) hdt
      simp only [replDunder, if_neg hcd, List.length_cons] at ih ⊢
      omega

theorem hasDunder_collapseFuel : ∀ (n : Nat) (s : List Char), s.length ≤ n →
    hasDunder (collapseFuel n s) = false
  | 0, s, h => by
    have : s = [] := List.length_eq_zero.mp (Nat.le_zero.mp h)
    subst this
    simp [collapseFuel, hasDunder]
  | n + 1, s, h => by
    by_cases hd : hasDunder s = true
    · have hlt := replDunder_length_lt s hd
      have : (replDunder s).length ≤ n := by omega
      simpa [collapseFuel, hd] using hasDunder_collapseFuel n (replDunder s) this
    · have hf : hasDunder s = false := Bool.eq_false_iff.mpr hd
      simp [collapseFuel, hf]

/-- The `while "__" in s` loop always exits with no `"__"` left. -/
theorem hasDunder_collapseUnders (s : List Char) :
    hasDunder (collapseUnders s) = false :=
  hasDunder_collapseFuel s.length s le_rfl

theorem mem_replDunder : ∀ {s : List Char} {c : Char}, c ∈ replDunder s → c ∈ s
  | [], c, h => by simpa [replDunder] using h
  | [d], c, h => by simpa [replDunder] using h
  | a :: b :: t, c, h => by
    by_cases hab : a = '_' ∧ b = '_'
    · simp only [replDunder, if_pos hab, List.mem_cons] at h
      rcases h with h | h
      · simp [hab.1, h]
      · exact List.mem_cons_of_mem _ (List.mem_cons_of_mem _ (mem_replDunder h))
    · simp only [replDunder, if_neg hab, List.mem_cons] at h
      rcases h with h | h
      · simp [h]
      · exact List.mem_cons_of_mem _ (mem_replDunder h)

theorem mem_collapseFuel : ∀ {n : Nat} {s : List Char} {c : Char},
    c ∈ collapseFuel n s → c ∈ s
  | 0, s, c, h => by simpa [collapseFuel] using h
  | n + 1, s, c, h => by
    by_cases hd : hasDunder s = true
    · simp only [collapseFuel, hd, if_true] at h
      exact mem_replDunder (mem_collapseFuel h)
    · simpa [collapseFuel, hd] using h

theorem mem_dropTrail {p : Char → Bool} :
    ∀ {l : List Char} {c : Char}, c ∈ dropTrail p l → c ∈ l
  | [], c, h => by simpa [dropTrail] using h
  | a :: t, c, h => by
    rcases ht : dropTrail p t with _ | ⟨b, r⟩
    · rw [dropTrail, ht] at h
      by_cases hpa : p a
      · simp [hpa] at h
      · simp only [hpa, Bool.false_eq_true, if_false, List.mem_singleton] at h
        simp [h]
    · rw [dropTrail, ht] at h
      rcases List.mem_cons.mp h with h | h
      · simp [h]
      · have hm : c ∈ dropTrail p t := by rw [ht]; exact h
        exact List.mem_cons_of_mem _ (mem_dropTrail hm)

theorem mem_stripBoth {p : Char → Bool} {l : List Char} {c : Char}
    (h : c ∈ stripBoth p l) : c ∈ l :=
  (l.dropWhile_sublist p).mem (mem_dropTrail h)

theorem toNat_ofNat_of_lt {n : Nat} (h : n < 55296) : (Char.ofNat n).toNat = n := by
  have hv : n.isValidChar := Or.inl h
  simp [Char.ofNat, hv, Char.ofNatAux, Char.toNat, UInt32.toNat, BitVec.toNat_ofNatLt]

theorem isUpperCh_lowerCh (c : Char) : isUpperCh (lowerCh c) = false := by
  unfold lowerCh isUpperCh
  by_cases h : 65 ≤ c.toNat ∧ c.toNat ≤ 90
  · rw [if_pos h]
    rw [toNat_ofNat_of_lt (by omega)]
    simp only [Bool.and_eq_false_iff, decide_eq_false_iff_not]
    omega
  · rw [if_neg h]
    simp only [Bool.and_eq_false_iff, decide_eq_false_iff_not]
    omega

theorem head_dropWhile_not {p : Char → Bool} :
    ∀ {l t : List Char} {c : Char}, l.dropWhile p = c :: t → p c = false
  | [], t, c, h => by simp [List.dropWhile] at h
  | a :: l, t, c, h => by
    by_cases hpa : p a
    · rw [List.dropWhile_cons_of_pos hpa] at h
      exact head_dropWhile_not h
    · rw [List.dropWhile_cons_of_neg hpa] at h
      cases h
      exact Bool.eq_false_iff.mpr hpa

theorem head_dropTrail {p : Char → Bool} :
    ∀ {l t : List Char} {c : Char}, dropTrail p l = c :: t → ∃ t', l = c :: t'
  | [], t, c, h => by simp [dropTrail] at h
  | a :: u, t, c, h => by
    rcases ht : dropTrail p u with _ | ⟨b, r⟩
    · rw [dropTrail, ht] at h
      by_cases hpa : p a
      · simp [hpa] at h
      · simp only [hpa, Bool.false_eq_true, if_false] at h
        cases h
        exact ⟨u, rfl⟩
    · rw [dropTrail, ht] at h
      cases h
      exact ⟨u, rfl⟩

theorem getLast_dropTrail {p : Char → Bool} :
    ∀ {l : List Char} {c : Char}, (dropTrail p l).getLast? = some c → p c = false
  | [], c, h => by simp [dropTrail] at h
  | a :: u, c, h => by
    rcases ht : dropTrail p u with _ | ⟨b, r⟩
    · rw [dropTrail, ht] at h
      by_cases hpa : p a
      · simp [hpa] at h
      · simp only [hpa, Bool.false_eq_true, if_false, List.getLast?_singleton,
          Option.some_inj] at h
        subst h
        exact Bool.eq_false_iff.mpr hpa
    · rw [dropTrail, ht, List.getLast?_cons_cons] at h
      have hm : (dropTrail p u).getLast? = some c := by rw [ht]; exact h
      exact getLast_dropTrail hm

theorem hasDunder_cons {x : Char} {l : List Char} (h : hasDunder l = true) :
    hasDunder (x :: l) = true := by
  cases l with
  | nil => simp [hasDunder] at h
  | cons y t =>
    by_cases hxy : x = '_' ∧ y = '_'
    · simp [hasDunder, hxy]
    · simpa [hasDunder, hxy] using h

theorem hasDunder_append_right {b : List Char} (a : List Char)
    (h : hasDunder b = true) : hasDunder (a ++ b) = true := by
  induction a with
  | nil => simpa using h
  | cons x t ih => exact hasDunder_cons ih

theorem hasDunder_append_left : ∀ {a : List Char}, hasDunder a = true →
    ∀ b : List Char, hasDunder (a ++ b) = true
  | [], h, _ => by simp [hasDunder] at h
  | [x], h, _ => by simp [hasDunder] at h
  | x :: y :: t, h, b => by
    by_cases hxy : x = '_' ∧ y = '_'
    · simp [hasDunder, hxy]
    · have ht : hasDunder (y :: t) = true := by simpa [hasDunder, hxy] using h
      have := hasDunder_append_left ht b
      simpa [hasDunder, hxy] using this

theorem dropTrail_front {p : Char → Bool} :
    ∀ l : List Char, ∃ u, l = dropTrail p l ++ u
  | [] => ⟨[], rfl⟩
  | a :: t => by
    rcases ht : dropTrail p t with _ | ⟨b, r⟩
    · by_cases hpa : p a
      · exact ⟨a :: t, by simp [dropTrail, ht, hpa]⟩
      · obtain ⟨u, hu⟩ := dropTrail_front (p := p) t
        rw [ht, List.nil_append] at hu
        refine ⟨u, ?_⟩
        simp only [dropTrail, ht, hpa, Bool.false_eq_true, if_false,
          List.cons_append, List.nil_append]
        rw [← hu]
    · obtain ⟨u, hu⟩ := dropTrail_front (p := p) t
      rw [ht] at hu
      refine ⟨u, ?_⟩
      simp only [dropTrail, ht, List.cons_append]
      rw [hu, List.cons_append]

theorem hasDunder_stripBoth_of {p : Char → Bool} {l : List Char}
    (h : hasDunder (stripBoth p l) = true) : hasDunder l = true := by
  obtain ⟨u, hu⟩ := dropTrail_front (p := p) (l.dropWhile p)
  have h1 : hasDunder (l.dropWhile p) = true := by
    rw [hu]; exact hasDunder_append_left h u
  obtain ⟨v, hv⟩ := (l.dropWhile_suffix p)
  rw [← hv]
  exact hasDunder_append_right v h1

theorem foldl_inv {α β : Type} {P : α → Prop} (f : α → β → α) :
    ∀ (l : List β) (a : α), P a → (∀ x b, P x → P (f x b)) → P (List.foldl f a l)
  | [], _, ha, _ => ha
  | b :: t, a, ha, hstep => foldl_inv f t (f a b) (hstep a b ha) hstep

theorem slugCore_not_upper {s : List Char} {c : Char} (h : c ∈ slugCore s) :
    isUpperCh c = false := by
  unfold slugCore at h
  have h4 := mem_stripBoth h
  have h3 := mem_collapseFuel h4
  have hstep2 : ∀ (x : List Char) (b : Char),
      (∀ d ∈ x, isUpperCh d = false) →
      ∀ d ∈ x.filter (fun e => decide (e ≠ b)), isUpperCh d = false := by
    intro x b hx d hd
    exact hx d (List.mem_of_mem_filter hd)
  have hstep1 : ∀ (x : List Char) (b : Char),
      (∀ d ∈ x, isUpperCh d = false) →
      ∀ d ∈ x.map (fun e => if e = b then '_' else e), isUpperCh d = false := by
    intro x b hx d hd
    obtain ⟨e, he, hde⟩ := List.mem_map.mp hd
    by_cases heb : e = b
    · rw [← hde, if_pos heb]; decide
    · rw [← hde, if_neg heb]; exact hx e he
  have hbase : ∀ d ∈ (stripBoth Char.isWhitespace s).map lowerCh,
      isUpperCh d = false := by
    intro d hd
    obtain ⟨e, _, hde⟩ := List.mem_map.mp hd
    rw [← hde]; exact isUpperCh_lowerCh e
  have h2 := foldl_inv (P := fun x => ∀ d ∈ x, isUpperCh d = false)
    _ DEL_CHARS _ (foldl_inv _ SUB_CHARS _ hbase hstep1) hstep2
  exact h2 c h3

theorem slugCore_eq (s : List Char) :
    slugCore s = stripBoth (fun c => decide (c = '_'))
      (collapseUnders
        (DEL_CHARS.foldl (fun acc ch => acc.filter (fun c => decide (c ≠ ch)))
          (SUB_CHARS.foldl (fun acc ch => acc.map (fun c => if c = ch then '_' else c))
            ((stripBoth Char.isWhitespace s).map lowerCh)))) := rfl

theorem stripU_head {l : List Char} :
    (stripBoth (fun c => decide (c = '_')) l).head? ≠ some '_' := by
  intro hh
  rcases he : stripBoth (fun c => decide (c = '_')) l with _ | ⟨c, t⟩
  · rw [he] at hh
    simp at hh
  · rw [he] at hh
    simp only [List.head?_cons, Option.some_inj] at hh
    subst hh
    unfold stripBoth at he
    obtain ⟨t', ht'⟩ := head_dropTrail he
    have := head_dropWhile_not ht'
    simp at this

theorem stripU_last {l : List Char} :
    (stripBoth (fun c => decide (c = '_')) l).getLast? ≠ some '_' := by
  intro hh
  unfold stripBoth at hh
  have := getLast_dropTrail hh
  simp at this

theorem hasDunder_slugCore (s : List Char) : hasDunder (slugCore s) = false := by
  by_cases hd : hasDunder (slugCore s) = true
  · exfalso
    rw [slugCore_eq] at hd
    have h1 := hasDunder_stripBoth_of hd
    rw [hasDunder_collapseUnders] at h1
    exact Bool.false_ne_true h1
  · exact Bool.eq_false_iff.mpr hd

/-- Claim C7: for every input (including an absent/`None` input),
`slugify` returns a non-empty (ASCII-)lowercase string that neither
starts nor ends with an underscore and contains no `"__"` run, and it
returns the literal token `"unknown"` when the input is absent or when
the normalisation core would leave an empty result. -/
theorem C7_slugify_contract :
    slugify Option.none = ("unknown").data ∧
    ∀ s : List Char,
      slugify (some s) ≠ [] ∧
      (slugify (some s)).head? ≠ some '_' ∧
      (slugify (some s)).getLast? ≠ some '_' ∧
      hasDunder (slugify (some s)) = false ∧
      (∀ c ∈ slugify (some s), isUpperCh c = false) ∧
      (slugCore s = [] → slugify (some s) = ("unknown").data) := by
  refine ⟨rfl, fun s => ?_⟩
  by_cases hc : slugCore s = []
  · have hs : slugify (some s) = ("unknown").data := by
      simp [slugify, hc]
    refine ⟨by rw [hs]; decide, by rw [hs]; decide, by rw [hs]; decide,
      by rw [hs]; decide, ?_, fun _ => hs⟩
    intro c hcm
    rw [hs] at hcm
    have hall : ∀ c ∈ ("unknown").data, isUpperCh c = false := by decide
    exact hall c hcm
  · have hs : slugify (some s) = slugCore s := by
      simp [slugify, hc]
    rw [hs]
    refine ⟨hc, ?_, ?_, hasDunder_slugCore s,
      fun c h => slugCore_not_upper h, fun h => absurd h hc⟩
    · rw [slugCore_eq]
      exact stripU_head
    · rw [slugCore_eq]
      exact stripU_last

/-- Witness for C7 at a concrete input: `"  A__B-c "` normalises to
`"a_b_c"`, and the theorem's per-input conjuncts hold there. -/
theorem C7_slugify_contract_witness :
    slugify (some ((" A__B-c ").data)) = ("a_b_c").data ∧
    hasDunder (slugify (some ((" A__B-c ").data))) = false ∧
    (slugCore ((" A__B-c ").data) = [] →
      slugify (some ((" A__B-c ").data)) = ("unknown").data) :=
  ⟨by decide, (C7_slugify_contract.2 ((" A__B-c ").data)).2.2.2.1,
    (C7_slugify_contract.2 ((" A__B-c ").data)).2.2.2.2.2⟩

/- ------------------------------------------------------------------ -/
/- Lemmas: canonical_party_name (C8)                                  -/
/- ------------------------------------------------------------------ -/

theorem findAssoc_mem : ∀ {m : List (String × String)} {k v : String},
    findAssoc k m = some v → (k, v) ∈ m
  | [], k, v, h => by simp [findAssoc] at h
  | p :: t, k, v, h => by
    by_cases hk : p.1 = k
    · rw [findAssoc, if_pos hk] at h
      cases h
      rw [← hk]
      exact List.mem_cons_self _ _
    · rw [findAssoc, if_neg hk] at h
      exact List.mem_cons_of_mem _ (findAssoc_mem h)

/-- Counterexample to claim C8: the curated key
`"DK-JOBBIK-MOMENTUM-MSZP-LMP-PÁRBESZÉD"` maps to
`"United for Hungary"`, and re-canonicalising that output title-cases
it to `"United For Hungary"`, so `canonical_party_name` is not
idempotent on this curated-table key. -/
theorem C8_canonical_idem_counterexample :
    canonical_party_name "DK-JOBBIK-MOMENTUM-MSZP-LMP-PÁRBESZÉD" =
      "United for Hungary" ∧
    canonical_party_name
        (canonical_party_name "DK-JOBBIK-MOMENTUM-MSZP-LMP-PÁRBESZÉD") =
      "United For Hungary" ∧
    canonical_party_name
        (canonical_party_name "DK-JOBBIK-MOMENTUM-MSZP-LMP-PÁRBESZÉD") ≠
      canonical_party_name "DK-JOBBIK-MOMENTUM-MSZP-LMP-PÁRBESZÉD" :=
  ⟨by decide, by decide, by decide⟩

/-- Claim C8 (amended): for every raw label whose case-normalised form
is a key of the curated exact-match table other than
`"DK-JOBBIK-MOMENTUM-MSZP-LMP-PÁRBESZÉD"` (whose mapped value
`"United for Hungary"` re-title-cases to `"United For Hungary"`),
`canonical_party_name` is idempotent on that label. -/
theorem C8_canonical_idem_amended (raw : String)
    (h1 : ∃ v, findAssoc (String.mk (pyUpper (pyStrip raw.data)))
      PARTY_NAME_MAP = some v)
    (h2 : String.mk (pyUpper (pyStrip raw.data)) ≠
      "DK-JOBBIK-MOMENTUM-MSZP-LMP-PÁRBESZÉD") :
    canonical_party_name (canonical_party_name raw) =
      canonical_party_name raw := by
  obtain ⟨v, hv⟩ := h1
  have hraw : ¬ raw = "" := by
    intro he
    subst he
    have h0 : String.mk (pyUpper (pyStrip ("" : String).data)) = "" := rfl
    rw [h0] at hv
    have hne : findAssoc "" PARTY_NAME_MAP = Option.none := by decide
    rw [hne] at hv
    cases hv
  have hcraw : canonical_party_name raw = v := by
    unfold canonical_party_name
    rw [if_neg hraw]
    simp only [hv]
  rw [hcraw]
  have hall : ∀ p ∈ PARTY_NAME_MAP,
      p.1 ≠ "DK-JOBBIK-MOMENTUM-MSZP-LMP-PÁRBESZÉD" →
      canonical_party_name p.2 = p.2 := by decide
  exact hall _ (findAssoc_mem hv) h2

/-- Witness for the amended C8 at the concrete key `"FIDESZ-KDNP"`. -/
theorem C8_canonical_idem_amended_witness :
    (∃ v, findAssoc (String.mk (pyUpper (pyStrip ("FIDESZ-KDNP" : String).data)))
      PARTY_NAME_MAP = some v) ∧
    canonical_party_name (canonical_party_name "FIDESZ-KDNP") =
      canonical_party_name "FIDESZ-KDNP" :=
  ⟨⟨"Fidesz", by decide⟩,
    C8_canonical_idem_amended "FIDESZ-KDNP" ⟨"Fidesz", by decide⟩ (by decide)⟩

/- ------------------------------------------------------------------ -/
/- Lemmas: constituency grouping (C1, C2)                             -/
/- ------------------------------------------------------------------ -/

theorem char_toNat_inj {a b : Char} (h : a.toNat = b.toNat) : a = b :=
  Char.eq_of_val_eq (UInt32.eq_of_toBitVec_eq (BitVec.eq_of_toNat_eq h))

theorem strLeB_total : ∀ a b : List Char, strLeB a b = true ∨ strLeB b a = true
  | [], b => Or.inl rfl
  | a :: as, [] => Or.inr rfl
  | a :: as, b :: bs => by
    rcases Nat.lt_trichotomy a.toNat b.toNat with h | h | h
    · left
      simp [strLeB, h]
    · rcases strLeB_total as bs with ih | ih
      · left
        simpa [strLeB, h, Nat.lt_irrefl] using ih
      · right
        simpa [strLeB, h.symm, Nat.lt_irrefl] using ih
    · right
      simp [strLeB, h]

theorem strLeB_trans : ∀ a b c : List Char, strLeB a b = true →
    strLeB b c = true → strLeB a c = true
  | [], _, _, _, _ => rfl
  | a :: as, [], c, h, _ => by simp [strLeB] at h
  | a :: as, b :: bs, [], _, h => by simp [strLeB] at h
  | a :: as, b :: bs, c :: cs, h1, h2 => by
    by_cases hab : a.toNat < b.toNat
    · by_cases hbc : b.toNat < c.toNat
      · rw [strLeB, if_pos (by omega)]
      · by_cases hcb : c.toNat < b.toNat
        · rw [strLeB, if_neg hbc, if_pos hcb] at h2
          cases h2
        · rw [strLeB, if_pos (by omega)]
    · by_cases hba : b.toNat < a.toNat
      · rw [strLeB, if_neg hab, if_pos hba] at h1
        cases h1
      · rw [strLeB, if_neg hab, if_neg hba] at h1
        by_cases hbc : b.toNat < c.toNat
        · rw [strLeB, if_pos (by omega)]
        · by_cases hcb : c.toNat < b.toNat
          · rw [strLeB, if_neg hbc, if_pos hcb] at h2
            cases h2
          · rw [strLeB, if_neg hbc, if_neg hcb] at h2
            rw [strLeB, if_neg (by omega : ¬ a.toNat < c.toNat),
              if_neg (by omega : ¬ c.toNat < a.toNat)]
            exact strLeB_trans as bs cs h1 h2

theorem strLeB_antisymm : ∀ a b : List Char, strLeB a b = true →
    strLeB b a = true → a = b
  | [], [], _, _ => rfl
  | [], b :: bs, _, h => by simp [strLeB] at h
  | a :: as, [], h, _ => by simp [strLeB] at h
  | a :: as, b :: bs, h1, h2 => by
    by_cases hab : a.toNat < b.toNat
    · rw [strLeB, if_neg (by omega : ¬ b.toNat < a.toNat), if_pos hab] at h2
      cases h2
    · by_cases hba : b.toNat < a.toNat
      · rw [strLeB, if_neg hab, if_pos hba] at h1
        cases h1
      · rw [strLeB, if_neg hab, if_neg hba] at h1
        rw [strLeB, if_neg hba, if_neg hab] at h2
        have he : a.toNat = b.toNat := by omega
        rw [char_toNat_inj he, strLeB_antisymm as bs h1 h2]

instance : IsTotal (Nat × String) keyLeP :=
  ⟨fun a b => by
    unfold keyLeP keyLeB
    by_cases h1 : a.1 < b.1
    · left
      rw [if_pos h1]
    · by_cases h2 : b.1 < a.1
      · right
        rw [if_pos h2]
      · rw [if_neg h1, if_neg h2, if_neg h2, if_neg h1]
        exact strLeB_total _ _⟩

instance : IsTrans (Nat × String) keyLeP :=
  ⟨fun a b c hab hbc => by
    unfold keyLeP keyLeB at hab hbc ⊢
    by_cases hab1 : a.1 < b.1
    · by_cases hbc1 : b.1 < c.1
      · rw [if_pos (by omega)]
      · by_cases hcb1 : c.1 < b.1
        · rw [if_neg hbc1, if_pos hcb1] at hbc
          cases hbc
        · rw [if_pos (by omega : a.1 < c.1)]
    · by_cases hba1 : b.1 < a.1
      · rw [if_neg hab1, if_pos hba1] at hab
        cases hab
      · rw [if_neg hab1, if_neg hba1] at hab
        by_cases hbc1 : b.1 < c.1
        · rw [if_pos (by omega)]
        · by_cases hcb1 : c.1 < b.1
          · rw [if_neg hbc1, if_pos hcb1] at hbc
            cases hbc
          · rw [if_neg hbc1, if_neg hcb1] at hbc
            rw [if_neg (by omega : ¬ a.1 < c.1), if_neg (by omega : ¬ c.1 < a.1)]
            exact strLeB_trans _ _ _ hab hbc⟩

instance : IsAntisymm (Nat × String) keyLeP :=
  ⟨fun a b hab hba => by
    unfold keyLeP keyLeB at hab hba
    by_cases h1 : a.1 < b.1
    · rw [if_neg (by omega : ¬ b.1 < a.1), if_pos h1] at hba
      cases hba
    · by_cases h2 : b.1 < a.1
      · rw [if_neg h1, if_pos h2] at hab
        cases hab
      · rw [if_neg h1, if_neg h2] at hab
        rw [if_neg h2, if_neg h1] at hba
        have hn : a.1 = b.1 := by omega
        have hs : a.2.data = b.2.data := strLeB_antisymm _ _ hab hba
        have hs2 : a.2 = b.2 := congrArg String.mk hs
        exact Prod.ext hn hs2⟩

instance : IsTotal (Nat × Nat) pairLeP :=
  ⟨fun a b => by
    unfold pairLeP pairLeB
    by_cases h1 : a.1 < b.1
    · left
      rw [if_pos h1]
    · by_cases h2 : b.1 < a.1
      · right
        rw [if_pos h2]
      · rw [if_neg h1, if_neg h2, if_neg h2, if_neg h1]
        simp only [decide_eq_true_eq]
        omega⟩

instance : IsTrans (Nat × Nat) pairLeP :=
  ⟨fun a b c hab hbc => by
    unfold pairLeP pairLeB at hab hbc ⊢
    by_cases hab1 : a.1 < b.1
    · by_cases hbc1 : b.1 < c.1
      · rw [if_pos (by omega)]
      · by_cases hcb1 : c.1 < b.1
        · rw [if_neg hbc1, if_pos hcb1] at hbc
          cases hbc
        · rw [if_pos (by omega : a.1 < c.1)]
    · by_cases hba1 : b.1 < a.1
      · rw [if_neg hab1, if_pos hba1] at hab
        cases hab
      · rw [if_neg hab1, if_neg hba1] at hab
        by_cases hbc1 : b.1 < c.1
        · rw [if_pos (by omega)]
        · by_cases hcb1 : c.1 < b.1
          · rw [if_neg hbc1, if_pos hcb1] at hbc
            cases hbc
          · rw [if_neg hbc1, if_neg hcb1] at hbc
            rw [if_neg (by omega : ¬ a.1 < c.1), if_neg (by omega : ¬ c.1 < a.1)]
            simp only [decide_eq_true_eq] at hab hbc ⊢
            omega⟩

instance : IsAntisymm (Nat × Nat) pairLeP :=
  ⟨fun a b hab hba => by
    unfold pairLeP pairLeB at hab hba
    by_cases h1 : a.1 < b.1
    · rw [if_neg (by omega : ¬ b.1 < a.1), if_pos h1] at hba
      cases hba
    · by_cases h2 : b.1 < a.1
      · rw [if_neg h1, if_pos h2] at hab
        cases hab
      · rw [if_neg h1, if_neg h2] at hab
        rw [if_neg h2, if_neg h1] at hba
        simp only [decide_eq_true_eq] at hab hba
        exact Prod.ext (by omega) (by omega)⟩

/-- Sorting the dedup of either of two lists with the same members
(and hence of two permuted lists) gives the same sorted list: sorted
deduplication is a canonical form. -/
theorem insertionSort_dedup_eq_of_mem {α : Type} [DecidableEq α]
    (r : α → α → Prop) [DecidableRel r] [IsTotal α r] [IsTrans α r]
    [IsAntisymm α r] {l₁ l₂ : List α} (h : ∀ x, x ∈ l₁ ↔ x ∈ l₂) :
    List.insertionSort r l₁.dedup = List.insertionSort r l₂.dedup := by
  have hp : l₁.dedup.Perm l₂.dedup :=
    (List.perm_ext_iff_of_nodup l₁.nodup_dedup l₂.nodup_dedup).mpr
      (fun a => by rw [List.mem_dedup, List.mem_dedup]; exact h a)
  exact List.eq_of_perm_of_sorted
    ((List.perm_insertionSort r _).trans
      (hp.trans (List.perm_insertionSort r _).symm))
    (List.sorted_insertionSort r _) (List.sorted_insertionSort r _)

theorem sortedKeys_perm_eq {l l' : List Cand} (h : l.Perm l') :
    sortedKeys l = sortedKeys l' := by
  unfold sortedKeys obsKeys
  exact insertionSort_dedup_eq_of_mem keyLeP
    (fun x => (h.map (fun c => (c.maz, c.evk))).mem_iff)

theorem sigOf_perm_eq {l l' : List Cand} (h : l.Perm l') :
    sigOf l = sigOf l' := by
  funext k
  unfold sigOf natSort eids
  exact insertionSort_dedup_eq_of_mem (· ≤ ·)
    (fun x => (h.filterMap _).mem_iff)

/-- Claim C2: ConstituencyId assignment is deterministic with respect
to input ordering — on any two permutations of the same candidate
roster, `build_constituency_id_mapping` produces identical
`(maz, evk) → ConstituencyId` mappings. -/
theorem C2_constituency_id_deterministic (l l' : List Cand)
    (h : l.Perm l') :
    constituency_id_by_const l = constituency_id_by_const l' := by
  unfold constituency_id_by_const
  rw [sortedKeys_perm_eq h, sigOf_perm_eq h]

/-- Witness for C2 on a concrete roster and a nontrivial permutation of
it. -/
theorem C2_constituency_id_deterministic_witness :
    ([⟨1, "01", 5, Option.none, Option.none⟩,
      ⟨1, "02", 7, Option.none, Option.none⟩,
      ⟨1, "01", 6, Option.none, Option.none⟩] : List Cand).Perm
      [⟨1, "01", 6, Option.none, Option.none⟩,
       ⟨1, "02", 7, Option.none, Option.none⟩,
       ⟨1, "01", 5, Option.none, Option.none⟩] ∧
    constituency_id_by_const
      [⟨1, "01", 5, Option.none, Option.none⟩,
       ⟨1, "02", 7, Option.none, Option.none⟩,
       ⟨1, "01", 6, Option.none, Option.none⟩] =
    constituency_id_by_const
      [⟨1, "01", 6, Option.none, Option.none⟩,
       ⟨1, "02", 7, Option.none, Option.none⟩,
       ⟨1, "01", 5, Option.none, Option.none⟩] :=
  ⟨by decide, C2_constituency_id_deterministic _ _ (by decide)⟩

theorem findSig_mem : ∀ {cs : List (List Nat × Nat)} {s : List Nat} {i : Nat},
    findSig s cs = some i → (s, i) ∈ cs
  | [], s, i, h => by simp [findSig] at h
  | p :: t, s, i, h => by
    by_cases hk : p.1 = s
    · rw [findSig, if_pos hk] at h
      cases h
      rw [← hk]
      exact List.mem_cons_self _ _
    · rw [findSig, if_neg hk] at h
      exact List.mem_cons_of_mem _ (findSig_mem h)

theorem findSig_append_some : ∀ {cs : List (List Nat × Nat)} {s : List Nat}
    {i : Nat} (ext : List (List Nat × Nat)), findSig s cs = some i →
    findSig s (cs ++ ext) = some i
  | [], s, i, _, h => by simp [findSig] at h
  | p :: t, s, i, ext, h => by
    rw [List.cons_append]
    by_cases hk : p.1 = s
    · rw [findSig, if_pos hk] at h
      rw [findSig, if_pos hk]
      exact h
    · rw [findSig, if_neg hk] at h
      rw [findSig, if_neg hk]
      exact findSig_append_some ext h

theorem findSig_append_none : ∀ {cs : List (List Nat × Nat)} {s : List Nat}
    (ext : List (List Nat × Nat)), findSig s cs = Option.none →
    findSig s (cs ++ ext) = findSig s ext
  | [], s, _, _ => by simp
  | p :: t, s, ext, h => by
    rw [List.cons_append]
    by_cases hk : p.1 = s
    · rw [findSig, if_pos hk] at h
      cases h
    · rw [findSig, if_neg hk] at h
      rw [findSig, if_neg hk]
      exact findSig_append_none ext h

/-- State invariant of the id-assignment loop: the `candidate_sets`
dict only grows, `next_id` never decreases, and every stored id stays
below `next_id`. -/
theorem assignIds_cs (sig : Nat × String → List Nat) :
    ∀ (ks : List (Nat × String)) (cs : List (List Nat × Nat)) (nid : Nat),
    (∀ p ∈ cs, p.2 < nid) →
    (∃ ext, (assignIds sig ks cs nid).2.1 = cs ++ ext) ∧
    nid ≤ (assignIds sig ks cs nid).2.2 ∧
    (∀ p ∈ (assignIds sig ks cs nid).2.1, p.2 < (assignIds sig ks cs nid).2.2)
  | [], cs, nid, hb => ⟨⟨[], (List.append_nil cs).symm⟩, le_rfl, hb⟩
  | k :: ks, cs, nid, hb => by
    rw [assignIds]
    rcases hf : findSig (sig k) cs with _ | i
    · simp only
      have hb' : ∀ p ∈ cs ++ [(sig k, nid)], p.2 < nid + 1 := by
        intro p hp
        rcases List.mem_append.mp hp with hp | hp
        · exact Nat.lt_succ_of_lt (hb p hp)
        · simp only [List.mem_singleton] at hp
          subst hp
          exact Nat.lt_succ_self nid
      obtain ⟨⟨ext, hext⟩, hle, hbf⟩ := assignIds_cs sig ks (cs ++ [(sig k, nid)]) (nid + 1) hb'
      refine ⟨⟨(sig k, nid) :: ext, ?_⟩, by omega, hbf⟩
      rw [hext, List.append_assoc]
      rfl
    · simp only
      exact assignIds_cs sig ks cs nid hb

/-- Every key processed by the loop is recorded with exactly the id the
final `candidate_sets` dict assigns to its signature. -/
theorem assignIds_out (sig : Nat × String → List Nat) :
    ∀ (ks : List (Nat × String)) (cs : List (List Nat × Nat)) (nid : Nat),
    (∀ p ∈ cs, p.2 < nid) →
    ∀ q ∈ (assignIds sig ks cs nid).1,
      findSig (sig q.1) (assignIds sig ks cs nid).2.1 = some q.2
  | [], _, _, _, q, hq => by simp [assignIds] at hq
  | k :: ks, cs, nid, hb, q, hq => by
    rw [assignIds] at hq ⊢
    rcases hf : findSig (sig k) cs with _ | i
    · rw [hf] at hq
      simp only [List.mem_cons] at hq
      have hb' : ∀ p ∈ cs ++ [(sig k, nid)], p.2 < nid + 1 := by
        intro p hp
        rcases List.mem_append.mp hp with hp | hp
        · exact Nat.lt_succ_of_lt (hb p hp)
        · simp only [List.mem_singleton] at hp
          subst hp
          exact Nat.lt_succ_self nid
      rcases hq with hq | hq
      · subst hq
        obtain ⟨⟨ext, hext⟩, _, _⟩ :=
          assignIds_cs sig ks (cs ++ [(sig k, nid)]) (nid + 1) hb'
        rw [hext]
        have h1 : findSig (sig k) (cs ++ [(sig k, nid)]) = some nid := by
          rw [findSig_append_none _ hf, findSig, if_pos rfl]
        exact findSig_append_some ext h1
      · exact assignIds_out sig ks (cs ++ [(sig k, nid)]) (nid + 1) hb' q hq
    · rw [hf] at hq
      simp only [List.mem_cons] at hq
      rcases hq with hq | hq
      · subst hq
        obtain ⟨⟨ext, hext⟩, _, _⟩ := assignIds_cs sig ks cs nid hb
        rw [hext]
        exact findSig_append_some ext hf
      · exact assignIds_out sig ks cs nid hb q hq

/-- The final `candidate_sets` dict never assigns one id to two
distinct signatures. -/
theorem assignIds_inj (sig : Nat × String → List Nat) :
    ∀ (ks : List (Nat × String)) (cs : List (List Nat × Nat)) (nid : Nat),
    (∀ p ∈ cs, p.2 < nid) →
    (∀ p ∈ cs, ∀ q ∈ cs, p.2 = q.2 → p.1 = q.1) →
    ∀ p ∈ (assignIds sig ks cs nid).2.1, ∀ q ∈ (assignIds sig ks cs nid).2.1,
      p.2 = q.2 → p.1 = q.1
  | [], _, _, _, hinj => hinj
  | k :: ks, cs, nid, hb, hinj => by
    rw [assignIds]
    rcases hf : findSig (sig k) cs with _ | i
    · simp only
      have hb' : ∀ p ∈ cs ++ [(sig k, nid)], p.2 < nid + 1 := by
        intro p hp
        rcases List.mem_append.mp hp with hp | hp
        · exact Nat.lt_succ_of_lt (hb p hp)
        · simp only [List.mem_singleton] at hp
          subst hp
          exact Nat.lt_succ_self nid
      have hinj' : ∀ p ∈ cs ++ [(sig k, nid)], ∀ q ∈ cs ++ [(sig k, nid)],
          p.2 = q.2 → p.1 = q.1 := by
        intro p hp q hq hpq
        rcases List.mem_append.mp hp with hp | hp <;>
          rcases List.mem_append.mp hq with hq | hq
        · exact hinj p hp q hq hpq
        · simp only [List.mem_singleton] at hq
          subst hq
          exact absurd (hpq ▸ hb p hp) (by simp)
        · simp only [List.mem_singleton] at hp
          subst hp
          exact absurd (hpq ▸ hb q hq) (by simp)
        · simp only [List.mem_singleton] at hp hq
          subst hp
          subst hq
          rfl
      exact assignIds_inj sig ks (cs ++ [(sig k, nid)]) (nid + 1) hb' hinj'
    · simp only
      exact assignIds_inj sig ks cs nid hb hinj

theorem cidLookup_mem : ∀ {out : List ((Nat × String) × Nat)}
    {k : Nat × String} {i : Nat}, cidLookup k out = some i → (k, i) ∈ out
  | [], k, i, h => by simp [cidLookup] at h
  | p :: t, k, i, h => by
    by_cases hk : p.1 = k
    · rw [cidLookup, if_pos hk] at h
      cases h
      rw [← hk]
      exact List.mem_cons_self _ _
    · rw [cidLookup, if_neg hk] at h
      exact List.mem_cons_of_mem _ (cidLookup_mem h)

theorem assignIds_lookup (sig : Nat × String → List Nat) :
    ∀ (ks : List (Nat × String)) (cs : List (List Nat × Nat)) (nid : Nat)
    (k : Nat × String), k ∈ ks →
    ∃ i, cidLookup k (assignIds sig ks cs nid).1 = some i
  | [], _, _, _, hk => by simp at hk
  | k₀ :: ks, cs, nid, k, hk => by
    rw [assignIds]
    rcases hf : findSig (sig k₀) cs with _ | i
    · simp only
      by_cases he : k₀ = k
      · exact ⟨nid, by rw [cidLookup, if_pos he]⟩
      · rcases List.mem_cons.mp hk with hk' | hk'
        · exact absurd hk'.symm he
        · obtain ⟨i, hi⟩ :=
            assignIds_lookup sig ks (cs ++ [(sig k₀, nid)]) (nid + 1) k hk'
          exact ⟨i, by rw [cidLookup, if_neg he]; exact hi⟩
    · simp only
      by_cases he : k₀ = k
      · exact ⟨i, by rw [cidLookup, if_pos he]⟩
      · rcases List.mem_cons.mp hk with hk' | hk'
        · exact absurd hk'.symm he
        · obtain ⟨j, hj⟩ := assignIds_lookup sig ks cs nid k hk'
          exact ⟨j, by rw [cidLookup, if_neg he]; exact hj⟩

theorem mem_sigOf {l : List Cand} {k : Nat × String} {x : Nat} :
    x ∈ sigOf l k ↔ x ∈ eids l k := by
  unfold sigOf natSort
  rw [(List.perm_insertionSort _ _).mem_iff, List.mem_dedup]

/-- Claim C1: in `build_constituency_id_mapping`, two observed
`(maz, evk)` keys receive the same ConstituencyId exactly when their
deduplicated candidate-id sets coincide — identical sets get the same
id, differing sets get different ids. -/
theorem C1_constituency_id_iff (l : List Cand) (k₁ k₂ : Nat × String)
    (h₁ : k₁ ∈ obsKeys l) (h₂ : k₂ ∈ obsKeys l) :
    (cid l k₁ = cid l k₂ ↔ ∀ x, (x ∈ eids l k₁ ↔ x ∈ eids l k₂)) := by
  have hm₁ : k₁ ∈ sortedKeys l :=
    (List.perm_insertionSort keyLeP _).mem_iff.mpr h₁
  have hm₂ : k₂ ∈ sortedKeys l :=
    (List.perm_insertionSort keyLeP _).mem_iff.mpr h₂
  obtain ⟨i₁, hi₁⟩ := assignIds_lookup (sigOf l) (sortedKeys l) [] 1 k₁ hm₁
  obtain ⟨i₂, hi₂⟩ := assignIds_lookup (sigOf l) (sortedKeys l) [] 1 k₂ hm₂
  have hout := assignIds_out (sigOf l) (sortedKeys l) [] 1
    (by intro p hp; simp at hp)
  have hf₁ := hout _ (cidLookup_mem hi₁)
  have hf₂ := hout _ (cidLookup_mem hi₂)
  have e₁ : cid l k₁ = some i₁ := hi₁
  have e₂ : cid l k₂ = some i₂ := hi₂
  constructor
  · intro hcc
    have hii : i₁ = i₂ := by
      rw [e₁, e₂] at hcc
      exact Option.some_injective _ hcc
    have hinj := assignIds_inj (sigOf l) (sortedKeys l) [] 1
      (by intro p hp; simp at hp) (by intro p hp; simp at hp)
    have hsig : sigOf l k₁ = sigOf l k₂ :=
      hinj _ (findSig_mem hf₁) _ (findSig_mem hf₂) (by simpa using hii)
    intro x
    rw [← mem_sigOf, ← mem_sigOf, hsig]
  · intro hset
    have hsig : sigOf l k₁ = sigOf l k₂ := by
      unfold sigOf natSort
      exact insertionSort_dedup_eq_of_mem (· ≤ ·) hset
    rw [e₁, e₂]
    rw [hsig] at hf₁
    rw [hf₁] at hf₂
    exact congrArg some (Option.some.inj hf₂)

/-- Witness for C1: two concrete keys sharing one candidate set receive
equal ids, by the theorem. -/
theorem C1_constituency_id_iff_witness :
    ((1, "01") ∈ obsKeys [⟨1, "01", 5, Option.none, Option.none⟩,
        ⟨1, "02", 5, Option.none, Option.none⟩] ∧
      (1, "02") ∈ obsKeys [⟨1, "01", 5, Option.none, Option.none⟩,
        ⟨1, "02", 5, Option.none, Option.none⟩]) ∧
    (cid [⟨1, "01", 5, Option.none, Option.none⟩,
        ⟨1, "02", 5, Option.none, Option.none⟩] (1, "01") =
      cid [⟨1, "01", 5, Option.none, Option.none⟩,
        ⟨1, "02", 5, Option.none, Option.none⟩] (1, "02") ↔
      ∀ x, (x ∈ eids [⟨1, "01", 5, Option.none, Option.none⟩,
          ⟨1, "02", 5, Option.none, Option.none⟩] (1, "01") ↔
        x ∈ eids [⟨1, "01", 5, Option.none, Option.none⟩,
          ⟨1, "02", 5, Option.none, Option.none⟩] (1, "02"))) :=
  ⟨⟨by decide, by decide⟩,
    C1_constituency_id_iff _ _ _ (by decide) (by decide)⟩

/- ------------------------------------------------------------------ -/
/- C6: field-level defaulting                                         -/
/- ------------------------------------------------------------------ -/

/-- Counterexample to claim C6 as stated: a record missing a *key*
field does not get a default — its ingestion fails (Python raises
`KeyError`): an empty station object, an empty results record, and an
empty vote line item all fail to ingest. -/
theorem C6_field_defaults_counterexample :
    szk_row_of 1 1 [] = Option.none ∧
    base_row_of [] (J.js "") = Option.none ∧
    cand_tetel_of [] = Option.none :=
  ⟨rfl, rfl, rfl⟩

/-- Claim C6 (amended): within a successfully fetched document, a
missing *optional* field (name, flag, counter, vote count, electorate
mapping) defaults to zero / empty string / empty mapping and never
fails the record; but a missing *key* field (`sorszam`, `sorsz`,
`maz`, `taz`, `egyeni_jkv`, `listas_jkv`, `ej_id`) makes the record's
ingestion raise instead of defaulting. -/
theorem C6_field_defaults_amended :
    (∀ (maz taz : Nat) (sz : List (String × J)) (v : J),
      jget sz "sorszam" = some v →
      (jget sz "letszam" = Option.none ∨
        ∃ l, jget sz "letszam" = some (J.jo l)) →
      ∃ row, szk_row_of maz taz sz = some row ∧
        (jget sz "szk_nev" = Option.none → jget row "szk_nev" = some (J.js "")) ∧
        (jget sz "evk" = Option.none → jget row "evk" = some (J.js "")) ∧
        (jget sz "cim" = Option.none → jget row "cim" = some (J.js "")) ∧
        (jget sz "akadaly" = Option.none → jget row "akadaly" = some (J.jn 0)) ∧
        (jget sz "telepSzintu" = Option.none →
          jget row "telepSzintu" = some (J.jn 0))) ∧
    (∀ (rec : List (String × J)) (evkv s m t : J)
      (ej li : List (String × J)),
      jget rec "sorsz" = some s → jget rec "maz" = some m →
      jget rec "taz" = some t →
      jget rec "egyeni_jkv" = some (J.jo ej) →
      jget rec "listas_jkv" = some (J.jo li) →
      ∃ row, base_row_of rec evkv = some row ∧
        (jget ej "vp_osszes" = Option.none →
          jget row "vp_osszes_egyeni" = some (J.jn 0)) ∧
        (jget li "szl_ervenytelen" = Option.none →
          jget row "szl_ervenytelen_lista" = some (J.jn 0))) ∧
    (∀ (t : List (String × J)) (eid : J), jget t "ej_id" = some eid →
      jget t "szavazat" = Option.none →
      cand_tetel_of t = some (eid, J.jn 0)) ∧
    (∀ (maz taz : Nat) (sz : List (String × J)),
      jget sz "sorszam" = Option.none → szk_row_of maz taz sz = Option.none) := by
  refine ⟨?_, ?_, ?_, ?_⟩
  · intro maz taz sz v hsor hlet
    rcases hlet with hlet | ⟨l, hlet⟩
    · refine ⟨_, by rw [szk_row_of, hsor, hlet], ?_, ?_, ?_, ?_, ?_⟩ <;>
        intro hf <;> simp [jget, hf]
    · refine ⟨_, by rw [szk_row_of, hsor, hlet], ?_, ?_, ?_, ?_, ?_⟩ <;>
        intro hf <;> simp [jget, hf]
  · intro rec evkv s m t ej li hs hm ht hej hli
    refine ⟨_, by rw [base_row_of, hs, hm, ht, hej, hli], ?_, ?_⟩ <;>
      intro hf <;> simp [jget, hf]
  · intro t eid heid hsz
    rw [cand_tetel_of, heid, hsz]
    rfl
  · intro maz taz sz hsor
    rw [szk_row_of, hsor]

/-- Witness for the amended C6: a station object carrying only
`sorszam` ingests successfully with every optional field defaulted. -/
theorem C6_field_defaults_amended_witness :
    ∃ row, szk_row_of 1 2 [("sorszam", J.jn 7)] = some row ∧
      (jget [("sorszam", J.jn 7)] "szk_nev" = Option.none →
        jget row "szk_nev" = some (J.js "")) ∧
      (jget [("sorszam", J.jn 7)] "evk" = Option.none →
        jget row "evk" = some (J.js "")) ∧
      (jget [("sorszam", J.jn 7)] "cim" = Option.none →
        jget row "cim" = some (J.js "")) ∧
      (jget [("sorszam", J.jn 7)] "akadaly" = Option.none →
        jget row "akadaly" = some (J.jn 0)) ∧
      (jget [("sorszam", J.jn 7)] "telepSzintu" = Option.none →
        jget row "telepSzintu" = some (J.jn 0)) :=
  C6_field_defaults_amended.1 1 2 [("sorszam", J.jn 7)] (J.jn 7) rfl
    (Or.inl rfl)

/- ------------------------------------------------------------------ -/
/- C4: failed results fetch                                           -/
/- ------------------------------------------------------------------ -/

/-- C4 failing input, evaluated: one pair whose station fetch succeeds
(one station ingested) while its results fetch fails. `base_rows` is
then empty, so `df_base = pd.DataFrame([])` has no columns and
`df_szk.merge(df_base, on=["maz","taz","sorsz","evk"], how="left")` at
line 418 raises `KeyError` (modelled `Option.none`): no output tables
are produced and the ingested station appears in neither, contrary to
the claim. The two vote-table merges are guarded by `.empty` checks
(lines 422, 427); the base merge is not. -/
theorem C4_results_fetch_failure_crash :
    build_df_from_all_pairs [⟨1, 1⟩]
      [⟨1, "01", 11, some "MKKP", some "Jelolt Egy"⟩] []
      (fun m t => if m = 1 && t = 1 then
        some [⟨1, some "Iskola", some "01", some "Pest 01",
          some "Fo utca 1", some 1, some 0, some 0, some 0,
          [("indulo", 500)]⟩]
        else Option.none)
      (fun _ _ => Option.none) = Option.none := by decide

/- ------------------------------------------------------------------ -/
/- Generic dataframe lemmas                                           -/
/- ------------------------------------------------------------------ -/

theorem mem_dedupFirstAux {α : Type} [DecidableEq α] :
    ∀ {seen l : List α} {a : α},
    (a ∈ dedupFirstAux seen l ↔ a ∈ l ∧ a ∉ seen)
  | seen, [], a => by simp [dedupFirstAux]
  | seen, b :: t, a => by
    rw [dedupFirstAux]
    by_cases hb : b ∈ seen
    · rw [if_pos hb, mem_dedupFirstAux]
      constructor
      · rintro ⟨h1, h2⟩
        exact ⟨List.mem_cons_of_mem _ h1, h2⟩
      · rintro ⟨h1, h2⟩
        rcases List.mem_cons.mp h1 with h1 | h1
        · subst h1
          exact absurd hb h2
        · exact ⟨h1, h2⟩
    · rw [if_neg hb]
      constructor
      · intro h
        rcases List.mem_cons.mp h with h | h
        · subst h
          exact ⟨List.mem_cons_self _ _, hb⟩
        · obtain ⟨h1, h2⟩ := mem_dedupFirstAux.mp h
          refine ⟨List.mem_cons_of_mem _ h1, fun hs => h2 ?_⟩
          exact List.mem_cons_of_mem _ hs
      · rintro ⟨h1, h2⟩
        rcases List.mem_cons.mp h1 with h1 | h1
        · subst h1
          exact List.mem_cons_self _ _
        · by_cases hab : a = b
          · subst hab
            exact List.mem_cons_self _ _
          · refine List.mem_cons_of_mem _ (mem_dedupFirstAux.mpr ⟨h1, ?_⟩)
            intro hs
            rcases List.mem_cons.mp hs with hs | hs
            · exact hab hs
            · exact h2 hs

theorem mem_dedupFirst {α : Type} [DecidableEq α] {l : List α} {a : α} :
    a ∈ dedupFirst l ↔ a ∈ l := by
  rw [dedupFirst, mem_dedupFirstAux]
  simp

theorem nodup_dedupFirstAux {α : Type} [DecidableEq α] :
    ∀ (seen l : List α), (dedupFirstAux seen l).Nodup
  | seen, [] => List.nodup_nil
  | seen, b :: t => by
    rw [dedupFirstAux]
    by_cases hb : b ∈ seen
    · rw [if_pos hb]
      exact nodup_dedupFirstAux seen t
    · rw [if_neg hb]
      refine List.Nodup.cons ?_ (nodup_dedupFirstAux (b :: seen) t)
      intro hmem
      exact (mem_dedupFirstAux.mp hmem).2 (List.mem_cons_self _ _)

theorem nodup_dedupFirst {α : Type} [DecidableEq α] (l : List α) :
    (dedupFirst l).Nodup := nodup_dedupFirstAux [] l

theorem rget_append_of_some {r e : Row} {c : String} {v : Val}
    (h : rget r c = some v) : rget (r ++ e) c = some v := by
  induction r with
  | nil => simp [rget] at h
  | cons p t ih =>
    by_cases hp : p.1 = c
    · rw [rget, if_pos hp] at h
      rw [List.cons_append, rget, if_pos hp]
      exact h
    · rw [rget, if_neg hp] at h
      rw [List.cons_append, rget, if_neg hp]
      exact ih h

theorem rget_none_of_keys {r : Row} {c : String}
    (h : ∀ p ∈ r, p.1 ≠ c) : rget r c = Option.none := by
  induction r with
  | nil => rfl
  | cons p t ih =>
    rw [rget, if_neg (h p (List.mem_cons_self _ _))]
    exact ih (fun q hq => h q (List.mem_cons_of_mem _ hq))

theorem rget_append_of_none {r e : Row} {c : String}
    (h : rget r c = Option.none) : rget (r ++ e) c = rget e c := by
  induction r with
  | nil => rfl
  | cons p t ih =>
    by_cases hp : p.1 = c
    · rw [rget, if_pos hp] at h
      cases h
    · rw [rget, if_neg hp] at h
      rw [List.cons_append, rget, if_neg hp]
      exact ih h

theorem leadsWith_self_append : ∀ (a b : List Char),
    leadsWith a (a ++ b) = true
  | [], _ => rfl
  | c :: t, b => by
    rw [List.cons_append, leadsWith]
    simp [leadsWith_self_append t b]

/-- Cell lookup in the value-cell section of a pivot row: with distinct
column labels, looking up `c` yields exactly the aggregate `f c`. -/
theorem rget_cells {f : String → Option Val} :
    ∀ {cols : List String} {c : String}, cols.Nodup → c ∈ cols →
    rget (cols.filterMap (fun c' => (f c').map (fun v => (c', v)))) c = f c
  | [], c, _, hc => by simp at hc
  | c₀ :: cols, c, hnd, hc => by
    have hnd' := (List.nodup_cons.mp hnd).2
    have hc₀ := (List.nodup_cons.mp hnd).1
    rw [List.filterMap_cons]
    by_cases he : c₀ = c
    · subst he
      rcases hf : f c₀ with _ | v
      · have hkeys : ∀ p ∈ cols.filterMap
            (fun c' => (f c').map (fun v => (c', v))), p.1 ≠ c₀ := by
          intro p hp
          obtain ⟨c', hc', hpc⟩ := List.mem_filterMap.mp hp
          rcases hfv : f c' with _ | w
          · rw [hfv] at hpc
            cases hpc
          · rw [hfv] at hpc
            cases hpc
            intro hcc
            simp only at hcc
            rw [hcc] at hc'
            exact hc₀ hc'
        simp only [Option.map_none']
        exact rget_none_of_keys hkeys
      · simp only [Option.map_some']
        rw [rget, if_pos rfl]
    · have hcc : c ∈ cols := by
        rcases List.mem_cons.mp hc with h | h
        · exact absurd h.symm he
        · exact h
      rcases hf : f c₀ with _ | v
      · simp only [Option.map_none']
        exact rget_cells hnd' hcc
      · simp only [Option.map_some']
        rw [rget, if_neg he]
        exact rget_cells hnd' hcc

theorem sum_filter_split (v : Row → Int) (p : Row → Bool) :
    ∀ rs : List Row,
    ((rs.filter p).map v).sum + ((rs.filter (fun r => !(p r))).map v).sum =
      (rs.map v).sum
  | [] => by simp
  | r :: t => by
    have ih := sum_filter_split v p t
    by_cases hp : p r
    · rw [List.filter_cons_of_pos hp,
        List.filter_cons_of_neg (by simp [hp])]
      simp only [List.map_cons, List.sum_cons]
      omega
    · rw [List.filter_cons_of_neg hp,
        List.filter_cons_of_pos (by simp [hp])]
      simp only [List.map_cons, List.sum_cons]
      omega

/-- Summing fiberwise over the distinct labels of a row list equals
summing over the whole list (the pivot's conservation property). -/
theorem sum_fiberwise (v : Row → Int) (lab : Row → String) :
    ∀ (cols : List String), cols.Nodup → ∀ rs : List Row,
    (∀ r ∈ rs, lab r ∈ cols) →
    (cols.map (fun c =>
      ((rs.filter (fun r => decide (lab r = c))).map v).sum)).sum =
      (rs.map v).sum
  | [], _, rs, hall => by
    cases rs with
    | nil => simp
    | cons r t => exact absurd (hall r (List.mem_cons_self _ _)) (by simp)
  | c :: cols, hnd, rs, hall => by
    obtain ⟨hc₀, hnd'⟩ := List.nodup_cons.mp hnd
    rw [List.map_cons, List.sum_cons]
    have hsplit := sum_filter_split v (fun r => decide (lab r = c)) rs
    have hall' : ∀ r ∈ rs.filter (fun r => !(decide (lab r = c))),
        lab r ∈ cols := by
      intro r hr
      obtain ⟨hrm, hrp⟩ := List.mem_filter.mp hr
      rcases List.mem_cons.mp (hall r hrm) with h | h
      · simp [h] at hrp
      · exact h
    have htail : ∀ c' ∈ cols,
        rs.filter (fun r => decide (lab r = c')) =
        (rs.filter (fun r => !(decide (lab r = c)))).filter
          (fun r => decide (lab r = c')) := by
      intro c' hc'
      rw [List.filter_filter]
      apply List.filter_congr
      intro r _
      by_cases h : lab r = c'
      · have hne : ¬ c' = c := by
          intro he
          rw [he] at hc'
          exact hc₀ hc'
        have hne2 : ¬ lab r = c := by
          rw [h]
          exact hne
        simp [h, hne, hne2]
      · simp [h]
    have hmapeq : cols.map (fun c' =>
        ((rs.filter (fun r => decide (lab r = c'))).map v).sum) =
      cols.map (fun c' =>
        (((rs.filter (fun r => !(decide (lab r = c)))).filter
          (fun r => decide (lab r = c'))).map v).sum) := by
      apply List.map_congr_left
      intro c' hc'
      rw [htail c' hc']
    rw [hmapeq,
      sum_fiberwise v lab cols hnd' (rs.filter (fun r => !(decide (lab r = c)))) hall']
    exact hsplit

theorem leadsWith_of_data_append {p s : String} (x : List Char)
    (h : s.data = p.data ++ x) : leadsB p s = true := by
  rw [leadsB, h]
  exact leadsWith_self_append _ _

theorem leads_votes_cand (x : String) :
    leadsB "votes_" ("votes_individual_party_" ++ x) = true := by
  apply leadsWith_of_data_append (("individual_party_").data ++ x.data)
  rw [String.data_append]
  have h : ("votes_individual_party_").data =
      ("votes_").data ++ ("individual_party_").data := by decide
  rw [h, List.append_assoc]

theorem leads_votes_list (t s : String) :
    leadsB "votes_" ("votes_list_" ++ t ++ "_" ++ s) = true := by
  apply leadsWith_of_data_append
    (("list_").data ++ (t.data ++ (("_").data ++ s.data)))
  rw [String.data_append, String.data_append, String.data_append]
  have h : ("votes_list_").data = ("votes_").data ++ ("list_").data := by
    decide
  rw [h]
  simp [List.append_assoc]

theorem leads_candidate_col (x : String) :
    leadsB "candidate_" ("candidate_" ++ x ++ "_name") = true := by
  apply leadsWith_of_data_append (x.data ++ ("_name").data)
  rw [String.data_append, String.data_append, List.append_assoc]

theorem candRows_shape {eg : List Cand} {pairs : List (Nat × Nat)}
    {sf : SzkFetch} {jf : JkvFetch} {r : Row}
    (hr : r ∈ candRows eg pairs sf jf) :
    ∃ (m t s : Nat) (e cv : String) (vv : Int),
      r = [("maz", Val.vi m), ("taz", Val.vi t), ("sorsz", Val.vi s),
           ("evk", Val.vs e), ("party_col", Val.vs cv),
           ("votes", Val.vi vv)] ∧
      leadsB "votes_" cv = true := by
  unfold candRows at hr
  obtain ⟨p, hp, hr⟩ := List.mem_flatMap.mp hr
  rcases hszk : sf p.1 p.2 with _ | szs
  · rw [hszk] at hr
    simp at hr
  · rw [hszk] at hr
    rcases hjkv : jf p.1 p.2 with _ | recs
    · rw [hjkv] at hr
      simp at hr
    · rw [hjkv] at hr
      obtain ⟨rec, _, hr⟩ := List.mem_flatMap.mp hr
      obtain ⟨t, _, hr⟩ := List.mem_map.mp hr
      refine ⟨rec.maz, rec.taz, rec.sorsz, evkLookup szs rec.sorsz,
        candColOf eg t.ej_id, t.szavazat.getD 0, by rw [← hr]; rfl, ?_⟩
      unfold candColOf
      exact leads_votes_cand _

theorem listRows_shape {lk : List Lista} {pairs : List (Nat × Nat)}
    {sf : SzkFetch} {jf : JkvFetch} {r : Row}
    (hr : r ∈ listRows lk pairs sf jf) :
    ∃ (m t s : Nat) (e cv : String) (vv : Int),
      r = [("maz", Val.vi m), ("taz", Val.vi t), ("sorsz", Val.vi s),
           ("evk", Val.vs e), ("list_col", Val.vs cv),
           ("votes", Val.vi vv)] ∧
      leadsB "votes_" cv = true := by
  unfold listRows at hr
  obtain ⟨p, hp, hr⟩ := List.mem_flatMap.mp hr
  rcases hszk : sf p.1 p.2 with _ | szs
  · rw [hszk] at hr
    simp at hr
  · rw [hszk] at hr
    rcases hjkv : jf p.1 p.2 with _ | recs
    · rw [hjkv] at hr
      simp at hr
    · rw [hjkv] at hr
      obtain ⟨rec, _, hr⟩ := List.mem_flatMap.mp hr
      obtain ⟨t, _, hr⟩ := List.mem_map.mp hr
      refine ⟨rec.maz, rec.taz, rec.sorsz, evkLookup szs rec.sorsz,
        listColOf lk t.tl_id, t.szavazat.getD 0, by rw [← hr]; rfl, ?_⟩
      unfold listColOf
      exact leads_votes_list _ _

theorem leads_votes_not_key4 {c : String} (h : leadsB "votes_" c = true) :
    ¬ c ∈ KEY4 := by
  intro hk
  rw [KEY4] at hk
  simp only [List.mem_cons, List.mem_singleton, List.not_mem_nil,
    or_false] at hk
  rcases hk with h1 | h1 | h1 | h1 <;> subst h1 <;> revert h <;> decide

theorem shape_rget_colc {m t s : Nat} {e cv : String} {vv : Int}
    {colc : String} (h1 : ¬ "maz" = colc) (h2 : ¬ "taz" = colc)
    (h3 : ¬ "sorsz" = colc) (h4 : ¬ "evk" = colc) :
    rget [("maz", Val.vi m), ("taz", Val.vi t), ("sorsz", Val.vi s),
      ("evk", Val.vs e), (colc, Val.vs cv), ("votes", Val.vi vv)] colc =
      some (Val.vs cv) := by
  rw [rget, if_neg h1, rget, if_neg h2, rget, if_neg h3, rget, if_neg h4,
    rget, if_pos rfl]

theorem shape_rget_votes {m t s : Nat} {e cv : String} {vv : Int}
    {colc : String} (hv : ¬ colc = "votes") :
    rget [("maz", Val.vi m), ("taz", Val.vi t), ("sorsz", Val.vi s),
      ("evk", Val.vs e), (colc, Val.vs cv), ("votes", Val.vi vv)] "votes" =
      some (Val.vi vv) := by
  rw [rget, if_neg (by decide : ¬ ("maz" : String) = "votes"),
    rget, if_neg (by decide : ¬ ("taz" : String) = "votes"),
    rget, if_neg (by decide : ¬ ("sorsz" : String) = "votes"),
    rget, if_neg (by decide : ¬ ("evk" : String) = "votes"),
    rget, if_neg hv, rget, if_pos rfl]

theorem aggSum_votes : ∀ (ms : List Row),
    (∀ rr ∈ ms, ∃ n : Int, rget rr "votes" = some (Val.vi n)) →
    aggSum (valsOf ms "votes") =
      Val.vi ((ms.filterMap (fun rr =>
        match rget rr "votes" with
        | some (Val.vi n) => some n
        | _ => Option.none)).sum)
  | [], _ => rfl
  | rr :: ms, hall => by
    obtain ⟨n, hn⟩ := hall rr (List.mem_cons_self _ _)
    have ih := aggSum_votes ms
      (fun q hq => hall q (List.mem_cons_of_mem _ hq))
    unfold valsOf at ih ⊢
    rw [List.filterMap_cons, hn, List.filterMap_cons, hn]
    simp only [aggSum, List.map_cons, List.sum_cons] at ih ⊢
    have hinner := congrArg (fun x => match x with
      | Val.vi n => n
      | Val.vs _ => (0 : Int)) ih
    simp only at hinner
    rw [hinner]

theorem idxCells_keys {k : List (Option Val)} {idx : List String} :
    ∀ p ∈ (idx.zip k).filterMap (fun p => p.2.map (fun v => (p.1, v))),
      p.1 ∈ idx := by
  intro p hp
  obtain ⟨q, hq, hpq⟩ := List.mem_filterMap.mp hp
  rcases hov : q.2 with _ | v
  · rw [hov] at hpq
    cases hpq
  · rw [hov] at hpq
    cases hpq
    simp only []
    exact (List.of_mem_zip hq).1

theorem filterMap_votes_eq_map : ∀ ms : List Row,
    (∀ rr ∈ ms, ∃ n : Int, rget rr "votes" = some (Val.vi n)) →
    (ms.filterMap (fun rr =>
      match rget rr "votes" with
      | some (Val.vi n) => some n
      | _ => Option.none)).sum =
    (ms.map (fun rr =>
      match rget rr "votes" with
      | some (Val.vi n) => n
      | _ => 0)).sum
  | [], _ => rfl
  | rr :: ms, hall => by
    obtain ⟨n, hn⟩ := hall rr (List.mem_cons_self _ _)
    have ih := filterMap_votes_eq_map ms
      (fun q hq => hall q (List.mem_cons_of_mem _ hq))
    rw [List.filterMap_cons, hn, List.map_cons, hn]
    simp only [List.sum_cons]
    rw [ih]

/-- Pivot specification (shared backbone of C3 and C10): on long vote
rows, every pivoted row belongs to a unique key; its cell at each wide
vote column is the sum of exactly the matching line items (absent when
none match), and its cells total the key's line items. -/
theorem pivot_spec (L : List Row) (colc : String)
    (hcK : ¬ colc ∈ KEY4) (hcV : ¬ colc = "votes")
    (hshape : ∀ r ∈ L, ∃ (m t s : Nat) (e cv : String) (vv : Int),
      r = [("maz", Val.vi m), ("taz", Val.vi t), ("sorsz", Val.vi s),
           ("evk", Val.vs e), (colc, Val.vs cv), ("votes", Val.vi vv)] ∧
      leadsB "votes_" cv = true) :
    ∀ r ∈ (pivot_table L KEY4 colc "votes" aggSum).rows,
      ∃ k ∈ pivotKeys L KEY4,
        r = pivotRowOf aggSum L KEY4 colc "votes" k ∧
        (∀ c ∈ pivotColNames L colc,
          rget r c = (if pivotMatches L KEY4 colc k c = [] then Option.none
            else some (Val.vi (((pivotMatches L KEY4 colc k c).filterMap
              (fun rr => match rget rr "votes" with
                | some (Val.vi n) => some n
                | _ => Option.none)).sum)))) ∧
        ((pivotColNames L colc).map (fun c =>
          match rget r c with
          | some (Val.vi n) => n
          | _ => 0)).sum =
        ((L.filter (fun rr => decide (pivotKeyOf KEY4 rr = k))).filterMap
          (fun rr => match rget rr "votes" with
            | some (Val.vi n) => some n
            | _ => Option.none)).sum := by
  have hcK' : ¬ colc = "maz" ∧ ¬ colc = "taz" ∧ ¬ colc = "sorsz" ∧
      ¬ colc = "evk" := by
    rw [KEY4] at hcK
    simp only [List.mem_cons, List.mem_singleton, List.not_mem_nil,
      or_false, not_or] at hcK
    exact hcK
  have hrgetc : ∀ rr ∈ L, ∃ cv : String, rget rr colc = some (Val.vs cv) ∧
      leadsB "votes_" cv = true := by
    intro rr hrr
    obtain ⟨m, t, s, e, cv, vv, hsh, hlead⟩ := hshape rr hrr
    subst hsh
    exact ⟨cv, shape_rget_colc (Ne.symm hcK'.1) (Ne.symm hcK'.2.1)
      (Ne.symm hcK'.2.2.1) (Ne.symm hcK'.2.2.2), hlead⟩
  have hrgetv : ∀ rr ∈ L, ∃ n : Int, rget rr "votes" = some (Val.vi n) := by
    intro rr hrr
    obtain ⟨m, t, s, e, cv, vv, hsh, _⟩ := hshape rr hrr
    subst hsh
    exact ⟨vv, shape_rget_votes hcV⟩
  have hcols : ∀ c ∈ pivotColNames L colc, leadsB "votes_" c = true := by
    intro c hc
    rw [pivotColNames, mem_dedupFirst] at hc
    obtain ⟨rr, hrr, hmatch⟩ := List.mem_filterMap.mp hc
    obtain ⟨cv, hcv, hlead⟩ := hrgetc rr hrr
    rw [hcv] at hmatch
    simp only [Option.some_inj] at hmatch
    subst hmatch
    exact hlead
  intro r hr
  obtain ⟨k, hk, hrk⟩ := List.mem_map.mp hr
  have hcell : ∀ c ∈ pivotColNames L colc,
      rget r c = pivotCell aggSum L KEY4 colc "votes" k c := by
    intro c hc
    rw [← hrk, pivotRowOf]
    have hnone : rget ((KEY4.zip k).filterMap
        (fun p => p.2.map (fun v => (p.1, v)))) c = Option.none := by
      apply rget_none_of_keys
      intro p hp
      intro he
      exact leads_votes_not_key4 (hcols c hc) (he ▸ idxCells_keys p hp)
    rw [rget_append_of_none hnone]
    exact rget_cells (nodup_dedupFirst _) hc
  have hcellval : ∀ c ∈ pivotColNames L colc,
      rget r c = (if pivotMatches L KEY4 colc k c = [] then Option.none
        else some (Val.vi (((pivotMatches L KEY4 colc k c).filterMap
          (fun rr => match rget rr "votes" with
            | some (Val.vi n) => some n
            | _ => Option.none)).sum))) := by
    intro c hc
    rw [hcell c hc, pivotCell]
    by_cases hms : pivotMatches L KEY4 colc k c = []
    · simp [hms]
    · rw [if_neg (by simpa [List.isEmpty_iff] using hms), if_neg hms]
      rw [aggSum_votes (pivotMatches L KEY4 colc k c) (fun rr hrr => by
        rw [pivotMatches] at hrr
        exact hrgetv rr (List.mem_of_mem_filter hrr))]
  refine ⟨k, hk, hrk.symm, hcellval, ?_⟩
  have hterm : ∀ c ∈ pivotColNames L colc,
      (match rget r c with
        | some (Val.vi n) => n
        | _ => (0 : Int)) =
      ((pivotMatches L KEY4 colc k c).map (fun rr =>
        match rget rr "votes" with
        | some (Val.vi n) => n
        | _ => 0)).sum := by
    intro c hc
    rw [hcellval c hc]
    by_cases hms : pivotMatches L KEY4 colc k c = []
    · simp [hms]
    · rw [if_neg hms]
      simp only
      exact filterMap_votes_eq_map (pivotMatches L KEY4 colc k c)
        (fun rr hrr => by
          rw [pivotMatches] at hrr
          exact hrgetv rr (List.mem_of_mem_filter hrr))
  have hfibeq : ∀ c, pivotMatches L KEY4 colc k c =
      (L.filter (fun rr => decide (pivotKeyOf KEY4 rr = k))).filter
        (fun rr => decide ((match rget rr colc with
          | some (Val.vs s₀) => s₀
          | _ => "") = c)) := by
    intro c
    rw [pivotMatches, List.filter_filter]
    apply List.filter_congr
    intro rr hrr
    obtain ⟨cv, hcv, _⟩ := hrgetc rr hrr
    rw [hcv]
    simp only [Option.some_inj, Val.vs.injEq]
    by_cases hkey : pivotKeyOf KEY4 rr = k <;>
      by_cases hcc : cv = c <;> simp [hkey, hcc]
  have hall : ∀ rr ∈ L.filter (fun rr => decide (pivotKeyOf KEY4 rr = k)),
      (match rget rr colc with
        | some (Val.vs s₀) => s₀
        | _ => "") ∈ pivotColNames L colc := by
    intro rr hrr
    obtain ⟨cv, hcv, _⟩ := hrgetc rr (List.mem_of_mem_filter hrr)
    rw [hcv]
    simp only
    rw [pivotColNames, mem_dedupFirst]
    exact List.mem_filterMap.mpr
      ⟨rr, List.mem_of_mem_filter hrr, by rw [hcv]⟩
  have hfib := sum_fiberwise
    (fun rr => match rget rr "votes" with
      | some (Val.vi n) => n
      | _ => 0)
    (fun rr => match rget rr colc with
      | some (Val.vs s₀) => s₀
      | _ => "")
    (pivotColNames L colc) (nodup_dedupFirst _)
    (L.filter (fun rr => decide (pivotKeyOf KEY4 rr = k))) hall
  calc ((pivotColNames L colc).map (fun c =>
          match rget r c with
          | some (Val.vi n) => n
          | _ => 0)).sum
      = ((pivotColNames L colc).map (fun c =>
          ((pivotMatches L KEY4 colc k c).map (fun rr =>
            match rget rr "votes" with
            | some (Val.vi n) => n
            | _ => 0)).sum)).sum := by
        apply congrArg
        exact List.map_congr_left hterm
    _ = ((pivotColNames L colc).map (fun c =>
          (((L.filter (fun rr => decide (pivotKeyOf KEY4 rr = k))).filter
            (fun rr => decide ((match rget rr colc with
              | some (Val.vs s₀) => s₀
              | _ => "") = c))).map (fun rr =>
            match rget rr "votes" with
            | some (Val.vi n) => n
            | _ => 0)).sum)).sum := by
        apply congrArg
        apply List.map_congr_left
        intro c _
        rw [hfibeq c]
    _ = ((L.filter (fun rr => decide (pivotKeyOf KEY4 rr = k))).map
          (fun rr => match rget rr "votes" with
            | some (Val.vi n) => n
            | _ => 0)).sum := hfib
    _ = ((L.filter (fun rr => decide (pivotKeyOf KEY4 rr = k))).filterMap
          (fun rr => match rget rr "votes" with
            | some (Val.vi n) => some n
            | _ => Option.none)).sum := by
        rw [filterMap_votes_eq_map _ (fun rr hrr =>
          hrgetv rr (List.mem_of_mem_filter hrr))]

/-- Claim C3: vote pivoting is sum-preserving, for both the
individual-vote and the list-vote pivots of `build_df_from_all_pairs`:
each wide cell is the sum (never an overwrite) of all long-format line
items with that station key and column name, and the wide cells of a
station row total exactly its long-format line items. -/
theorem C3_pivot_sum_preserving (eg : List Cand) (lk : List Lista)
    (pairs : List (Nat × Nat)) (sf : SzkFetch) (jf : JkvFetch) :
    (∀ r ∈ (pivot_table (candRows eg pairs sf jf) KEY4 "party_col"
        "votes" aggSum).rows,
      ∃ k ∈ pivotKeys (candRows eg pairs sf jf) KEY4,
        r = pivotRowOf aggSum (candRows eg pairs sf jf) KEY4 "party_col"
          "votes" k ∧
        (∀ c ∈ pivotColNames (candRows eg pairs sf jf) "party_col",
          rget r c = (if pivotMatches (candRows eg pairs sf jf) KEY4
              "party_col" k c = [] then Option.none
            else some (Val.vi (((pivotMatches (candRows eg pairs sf jf)
              KEY4 "party_col" k c).filterMap
              (fun rr => match rget rr "votes" with
                | some (Val.vi n) => some n
                | _ => Option.none)).sum)))) ∧
        ((pivotColNames (candRows eg pairs sf jf) "party_col").map
          (fun c => match rget r c with
            | some (Val.vi n) => n
            | _ => 0)).sum =
        (((candRows eg pairs sf jf).filter
          (fun rr => decide (pivotKeyOf KEY4 rr = k))).filterMap
          (fun rr => match rget rr "votes" with
            | some (Val.vi n) => some n
            | _ => Option.none)).sum) ∧
    (∀ r ∈ (pivot_table (listRows lk pairs sf jf) KEY4 "list_col"
        "votes" aggSum).rows,
      ∃ k ∈ pivotKeys (listRows lk pairs sf jf) KEY4,
        r = pivotRowOf aggSum (listRows lk pairs sf jf) KEY4 "list_col"
          "votes" k ∧
        (∀ c ∈ pivotColNames (listRows lk pairs sf jf) "list_col",
          rget r c = (if pivotMatches (listRows lk pairs sf jf) KEY4
              "list_col" k c = [] then Option.none
            else some (Val.vi (((pivotMatches (listRows lk pairs sf jf)
              KEY4 "list_col" k c).filterMap
              (fun rr => match rget rr "votes" with
                | some (Val.vi n) => some n
                | _ => Option.none)).sum)))) ∧
        ((pivotColNames (listRows lk pairs sf jf) "list_col").map
          (fun c => match rget r c with
            | some (Val.vi n) => n
            | _ => 0)).sum =
        (((listRows lk pairs sf jf).filter
          (fun rr => decide (pivotKeyOf KEY4 rr = k))).filterMap
          (fun rr => match rget rr "votes" with
            | some (Val.vi n) => some n
            | _ => Option.none)).sum) := by
  constructor
  · exact pivot_spec _ "party_col" (by decide) (by decide)
      (fun r hr => candRows_shape hr)
  · exact pivot_spec _ "list_col" (by decide) (by decide)
      (fun r hr => listRows_shape hr)

/-- Witness for C3: a station with two line items for the same entity
(100 and 50 votes) pivots to a single cell holding their sum, 150. -/
theorem C3_pivot_sum_preserving_witness :
    ∃ k ∈ pivotKeys
      (candRows [] [(1, 1)] (fun _ _ => some [])
        (fun _ _ => some [⟨5, 1, 1,
          ⟨Option.none, Option.none, Option.none, Option.none, Option.none,
            some [⟨11, some 100⟩, ⟨11, some 50⟩]⟩,
          ⟨Option.none, Option.none, Option.none, Option.none, Option.none,
            Option.none⟩⟩])) KEY4,
      [("maz", Val.vi 1), ("taz", Val.vi 1), ("sorsz", Val.vi 5),
        ("evk", Val.vs ""),
        ("votes_individual_party_unknown", Val.vi 150)] =
        pivotRowOf aggSum
          (candRows [] [(1, 1)] (fun _ _ => some [])
            (fun _ _ => some [⟨5, 1, 1,
              ⟨Option.none, Option.none, Option.none, Option.none,
                Option.none, some [⟨11, some 100⟩, ⟨11, some 50⟩]⟩,
              ⟨Option.none, Option.none, Option.none, Option.none,
                Option.none, Option.none⟩⟩])) KEY4 "party_col" "votes" k ∧
      (∀ c ∈ pivotColNames
          (candRows [] [(1, 1)] (fun _ _ => some [])
            (fun _ _ => some [⟨5, 1, 1,
              ⟨Option.none, Option.none, Option.none, Option.none,
                Option.none, some [⟨11, some 100⟩, ⟨11, some 50⟩]⟩,
              ⟨Option.none, Option.none, Option.none, Option.none,
                Option.none, Option.none⟩⟩])) "party_col",
        rget [("maz", Val.vi 1), ("taz", Val.vi 1), ("sorsz", Val.vi 5),
          ("evk", Val.vs ""),
          ("votes_individual_party_unknown", Val.vi 150)] c =
          (if pivotMatches
              (candRows [] [(1, 1)] (fun _ _ => some [])
                (fun _ _ => some [⟨5, 1, 1,
                  ⟨Option.none, Option.none, Option.none, Option.none,
                    Option.none, some [⟨11, some 100⟩, ⟨11, some 50⟩]⟩,
                  ⟨Option.none, Option.none, Option.none, Option.none,
                    Option.none, Option.none⟩⟩])) KEY4 "party_col" k c = []
            then Option.none
            else some (Val.vi (((pivotMatches
              (candRows [] [(1, 1)] (fun _ _ => some [])
                (fun _ _ => some [⟨5, 1, 1,
                  ⟨Option.none, Option.none, Option.none, Option.none,
                    Option.none, some [⟨11, some 100⟩, ⟨11, some 50⟩]⟩,
                  ⟨Option.none, Option.none, Option.none, Option.none,
                    Option.none, Option.none⟩⟩])) KEY4 "party_col" k c).filterMap
              (fun rr => match rget rr "votes" with
                | some (Val.vi n) => some n
                | _ => Option.none)).sum)))) ∧
      ((pivotColNames
          (candRows [] [(1, 1)] (fun _ _ => some [])
            (fun _ _ => some [⟨5, 1, 1,
              ⟨Option.none, Option.none, Option.none, Option.none,
                Option.none, some [⟨11, some 100⟩, ⟨11, some 50⟩]⟩,
              ⟨Option.none, Option.none, Option.none, Option.none,
                Option.none, Option.none⟩⟩])) "party_col").map
        (fun c => match rget [("maz", Val.vi 1), ("taz", Val.vi 1),
            ("sorsz", Val.vi 5), ("evk", Val.vs ""),
            ("votes_individual_party_unknown", Val.vi 150)] c with
          | some (Val.vi n) => n
          | _ => 0)).sum =
      (((candRows [] [(1, 1)] (fun _ _ => some [])
          (fun _ _ => some [⟨5, 1, 1,
            ⟨Option.none, Option.none, Option.none, Option.none,
              Option.none, some [⟨11, some 100⟩, ⟨11, some 50⟩]⟩,
            ⟨Option.none, Option.none, Option.none, Option.none,
              Option.none, Option.none⟩⟩])).filter
        (fun rr => decide (pivotKeyOf KEY4 rr = k))).filterMap
        (fun rr => match rget rr "votes" with
          | some (Val.vi n) => some n
          | _ => Option.none)).sum :=
  (C3_pivot_sum_preserving [] [] [(1, 1)] (fun _ _ => some [])
    (fun _ _ => some [⟨5, 1, 1,
      ⟨Option.none, Option.none, Option.none, Option.none, Option.none,
        some [⟨11, some 100⟩, ⟨11, some 50⟩]⟩,
      ⟨Option.none, Option.none, Option.none, Option.none, Option.none,
        Option.none⟩⟩])).1
    [("maz", Val.vi 1), ("taz", Val.vi 1), ("sorsz", Val.vi 5),
      ("evk", Val.vs ""),
      ("votes_individual_party_unknown", Val.vi 150)] (by decide)

/-- Claim C10: a vote line item whose entity id is absent from the
reference metadata is not dropped: its party label defaults to
`"UNKNOWN"`, its column becomes `votes_individual_party_unknown`
(resp. `votes_list_x_unknown`, the list type defaulting to the code
`"X"` lowercased), the emitted long row is present, counted among the
pivot matches of that column, and the pivot cell sums all such
matching items for the station. -/
theorem C10_unknown_entity (eg : List Cand) (lk : List Lista)
    (pairs : List (Nat × Nat)) (sf : SzkFetch) (jf : JkvFetch)
    (p : Nat × Nat) (szs : List Station) (recs : List JkvRec)
    (rec : JkvRec) (hp : p ∈ pairs) (hsf : sf p.1 p.2 = some szs)
    (hjf : jf p.1 p.2 = some recs) (hrec : rec ∈ recs) :
    (∀ t ∈ rec.egyeni_jkv.tetelek.getD [],
      (∀ c ∈ eg, c.ej_id ≠ t.ej_id) →
      candColOf eg t.ej_id = "votes_individual_party_unknown" ∧
      (keyRowOf szs rec ++
        [("party_col", Val.vs "votes_individual_party_unknown"),
         ("votes", Val.vi (t.szavazat.getD 0))]) ∈
        candRows eg pairs sf jf ∧
      (keyRowOf szs rec ++
        [("party_col", Val.vs "votes_individual_party_unknown"),
         ("votes", Val.vi (t.szavazat.getD 0))]) ∈
        pivotMatches (candRows eg pairs sf jf) KEY4 "party_col"
          (pivotKeyOf KEY4 (keyRowOf szs rec ++
            [("party_col", Val.vs "votes_individual_party_unknown"),
             ("votes", Val.vi (t.szavazat.getD 0))]))
          "votes_individual_party_unknown" ∧
      pivotCell aggSum (candRows eg pairs sf jf) KEY4 "party_col" "votes"
          (pivotKeyOf KEY4 (keyRowOf szs rec ++
            [("party_col", Val.vs "votes_individual_party_unknown"),
             ("votes", Val.vi (t.szavazat.getD 0))]))
          "votes_individual_party_unknown" =
        some (Val.vi (((pivotMatches (candRows eg pairs sf jf) KEY4
          "party_col"
          (pivotKeyOf KEY4 (keyRowOf szs rec ++
            [("party_col", Val.vs "votes_individual_party_unknown"),
             ("votes", Val.vi (t.szavazat.getD 0))]))
          "votes_individual_party_unknown").filterMap
          (fun rr => match rget rr "votes" with
            | some (Val.vi n) => some n
            | _ => Option.none)).sum))) ∧
    (∀ t ∈ rec.listas_jkv.tetelek.getD [],
      (∀ l ∈ lk, l.tl_id ≠ t.tl_id) →
      listColOf lk t.tl_id = "votes_list_x_unknown" ∧
      (keyRowOf szs rec ++
        [("list_col", Val.vs "votes_list_x_unknown"),
         ("votes", Val.vi (t.szavazat.getD 0))]) ∈
        listRows lk pairs sf jf) := by
  constructor
  · intro t ht hunk
    have hfind : eg.reverse.find?
        (fun c => decide (c.ej_id = t.ej_id)) = Option.none := by
      rw [List.find?_eq_none]
      intro c hc
      simp only [decide_eq_true_eq]
      exact hunk c (List.mem_reverse.mp hc)
    have hcol : candColOf eg t.ej_id = "votes_individual_party_unknown" := by
      unfold candColOf candJlcsOf
      rw [hfind]
      decide
    have hmem : (keyRowOf szs rec ++
        [("party_col", Val.vs "votes_individual_party_unknown"),
         ("votes", Val.vi (t.szavazat.getD 0))]) ∈
        candRows eg pairs sf jf := by
      unfold candRows
      refine List.mem_flatMap.mpr ⟨p, hp, ?_⟩
      rw [hsf, hjf]
      refine List.mem_flatMap.mpr ⟨rec, hrec, ?_⟩
      refine List.mem_map.mpr ⟨t, ht, ?_⟩
      unfold candRowOf
      rw [hcol]
    have hrgetp : rget (keyRowOf szs rec ++
        [("party_col", Val.vs "votes_individual_party_unknown"),
         ("votes", Val.vi (t.szavazat.getD 0))]) "party_col" =
        some (Val.vs "votes_individual_party_unknown") :=
      shape_rget_colc (by decide) (by decide) (by decide) (by decide)
    have hmatch : (keyRowOf szs rec ++
        [("party_col", Val.vs "votes_individual_party_unknown"),
         ("votes", Val.vi (t.szavazat.getD 0))]) ∈
        pivotMatches (candRows eg pairs sf jf) KEY4 "party_col"
          (pivotKeyOf KEY4 (keyRowOf szs rec ++
            [("party_col", Val.vs "votes_individual_party_unknown"),
             ("votes", Val.vi (t.szavazat.getD 0))]))
          "votes_individual_party_unknown" := by
      rw [pivotMatches]
      refine List.mem_filter.mpr ⟨hmem, ?_⟩
      simp [hrgetp]
    refine ⟨hcol, hmem, hmatch, ?_⟩
    unfold pivotCell
    rw [if_neg (by
      simp only [List.isEmpty_iff]
      exact List.ne_nil_of_mem hmatch)]
    rw [aggSum_votes _ (fun rr hrr => by
      rw [pivotMatches] at hrr
      obtain ⟨m', t', s', e', cv', vv', hsh, _⟩ :=
        candRows_shape (List.mem_of_mem_filter hrr)
      subst hsh
      exact ⟨vv', shape_rget_votes (by decide)⟩)]
  · intro t ht hunk
    have hfind : lk.reverse.find?
        (fun l => decide (l.tl_id = t.tl_id)) = Option.none := by
      rw [List.find?_eq_none]
      intro l hl
      simp only [decide_eq_true_eq]
      exact hunk l (List.mem_reverse.mp hl)
    have hcol : listColOf lk t.tl_id = "votes_list_x_unknown" := by
      unfold listColOf listMetaOf
      rw [hfind]
      decide
    refine ⟨hcol, ?_⟩
    unfold listRows
    refine List.mem_flatMap.mpr ⟨p, hp, ?_⟩
    rw [hsf, hjf]
    refine List.mem_flatMap.mpr ⟨rec, hrec, ?_⟩
    refine List.mem_map.mpr ⟨t, ht, ?_⟩
    unfold listRowOf
    rw [hcol]

/-- Witness for C10: with an empty candidate roster, a 100-vote line
item for unknown candidate id 11 lands in
`votes_individual_party_unknown` and the pivot cell holds 100. -/
theorem C10_unknown_entity_witness :
    candColOf [] 11 = "votes_individual_party_unknown" ∧
    [("maz", Val.vi 1), ("taz", Val.vi 1), ("sorsz", Val.vi 5),
     ("evk", Val.vs ""),
     ("party_col", Val.vs "votes_individual_party_unknown"),
     ("votes", Val.vi 100)] ∈
      candRows [] [(1, 1)] (fun _ _ => some [])
        (fun _ _ => some [⟨5, 1, 1,
          ⟨Option.none, Option.none, Option.none, Option.none, Option.none,
            some [⟨11, some 100⟩]⟩,
          ⟨Option.none, Option.none, Option.none, Option.none, Option.none,
            Option.none⟩⟩]) ∧
    [("maz", Val.vi 1), ("taz", Val.vi 1), ("sorsz", Val.vi 5),
     ("evk", Val.vs ""),
     ("party_col", Val.vs "votes_individual_party_unknown"),
     ("votes", Val.vi 100)] ∈
      pivotMatches
        (candRows [] [(1, 1)] (fun _ _ => some [])
          (fun _ _ => some [⟨5, 1, 1,
            ⟨Option.none, Option.none, Option.none, Option.none,
              Option.none, some [⟨11, some 100⟩]⟩,
            ⟨Option.none, Option.none, Option.none, Option.none,
              Option.none, Option.none⟩⟩])) KEY4 "party_col"
        [some (Val.vi 1), some (Val.vi 1), some (Val.vi 5),
          some (Val.vs "")] "votes_individual_party_unknown" ∧
    pivotCell aggSum
        (candRows [] [(1, 1)] (fun _ _ => some [])
          (fun _ _ => some [⟨5, 1, 1,
            ⟨Option.none, Option.none, Option.none, Option.none,
              Option.none, some [⟨11, some 100⟩]⟩,
            ⟨Option.none, Option.none, Option.none, Option.none,
              Option.none, Option.none⟩⟩])) KEY4 "party_col" "votes"
        [some (Val.vi 1), some (Val.vi 1), some (Val.vi 5),
          some (Val.vs "")] "votes_individual_party_unknown" =
      some (Val.vi 100) :=
  (C10_unknown_entity [] [] [(1, 1)] (fun _ _ => some [])
    (fun _ _ => some [⟨5, 1, 1,
      ⟨Option.none, Option.none, Option.none, Option.none, Option.none,
        some [⟨11, some 100⟩]⟩,
      ⟨Option.none, Option.none, Option.none, Option.none, Option.none,
        Option.none⟩⟩])
    (1, 1) []
    [⟨5, 1, 1,
      ⟨Option.none, Option.none, Option.none, Option.none, Option.none,
        some [⟨11, some 100⟩]⟩,
      ⟨Option.none, Option.none, Option.none, Option.none, Option.none,
        Option.none⟩⟩]
    ⟨5, 1, 1,
      ⟨Option.none, Option.none, Option.none, Option.none, Option.none,
        some [⟨11, some 100⟩]⟩,
      ⟨Option.none, Option.none, Option.none, Option.none, Option.none,
        Option.none⟩⟩
    (by decide) rfl rfl (by decide)).1
    ⟨11, some 100⟩ (by decide) (by decide)

/- ------------------------------------------------------------------ -/
/- Merge / rename / selection lemmas (C5, C9)                         -/
/- ------------------------------------------------------------------ -/

theorem mergeDF_cols {l r : DF} {onc : List String} {m : DF}
    (h : mergeDF l r onc = some m) :
    m.cols = l.cols ++ r.cols.filter (fun c => decide (c ∉ onc)) := by
  rw [mergeDF] at h
  split at h
  · cases h
    rfl
  · cases h

theorem mergeDF_rows {l r : DF} {onc : List String} {m : DF}
    (h : mergeDF l r onc = some m) :
    ∀ row ∈ m.rows, ∃ lr ∈ l.rows,
      row = lr ∨ ∃ rr ∈ r.rows, row = lr ++ stripOn onc rr := by
  rw [mergeDF] at h
  split at h
  · cases h
    intro row hrow
    simp only at hrow
    obtain ⟨lr, hlr, hmem⟩ := List.mem_flatMap.mp hrow
    refine ⟨lr, hlr, ?_⟩
    by_cases hms : (r.rows.filter (fun rr => rowMatches onc lr rr)).isEmpty
    · rw [if_pos hms] at hmem
      simp only [List.mem_singleton] at hmem
      exact Or.inl hmem
    · rw [if_neg hms] at hmem
      obtain ⟨rr, hrr, hr2⟩ := List.mem_map.mp hmem
      exact Or.inr ⟨rr, List.mem_of_mem_filter hrr, hr2.symm⟩
  · cases h

theorem renameDF_cols {m : List (String × String)} {df : DF} :
    (renameDF m df).cols = df.cols.map (renameCol m) := rfl

theorem renameDF_rows {m : List (String × String)} {df : DF} :
    (renameDF m df).rows = df.rows.map (renameRow m) := rfl

/-- Lookup after a rename: if, over the row's actual keys, exactly the
keys equal to `c₀` are renamed to `c'`, the renamed row's `c'` cell is
the original `c₀` cell. -/
theorem rget_renameRow {m : List (String × String)} {c' c₀ : String} :
    ∀ {row : Row},
    (∀ p ∈ row, (renameCol m p.1 = c' ↔ p.1 = c₀)) →
    rget (renameRow m row) c' = rget row c₀
  | [], _ => rfl
  | p :: t, hcond => by
    rw [renameRow, List.map_cons]
    by_cases hp : p.1 = c₀
    · rw [rget, if_pos ((hcond p (List.mem_cons_self _ _)).mpr hp),
        rget, if_pos hp]
    · rw [rget, if_neg (fun he => hp ((hcond p (List.mem_cons_self _ _)).mp he)),
        rget, if_neg hp]
      exact rget_renameRow (fun q hq => hcond q (List.mem_cons_of_mem _ hq))

/-- Column selection preserves the cells of selected columns. -/
theorem rget_selectRow {r : Row} :
    ∀ {cs : List String} {c : String}, c ∈ cs →
    rget (cs.filterMap (fun c' => (rget r c').map (fun v => (c', v)))) c =
      rget r c
  | [], c, hc => by simp at hc
  | c₀ :: cs, c, hc => by
    rw [List.filterMap_cons]
    by_cases he : c₀ = c
    · subst he
      rcases hv : rget r c₀ with _ | v
      · simp only [Option.map_none']
        apply rget_none_of_keys
        intro p hp
        obtain ⟨c', hc', hpc⟩ := List.mem_filterMap.mp hp
        rcases hv' : rget r c' with _ | w
        · rw [hv'] at hpc
          cases hpc
        · rw [hv'] at hpc
          cases hpc
          intro hcc
          simp only at hcc
          rw [hcc] at hv'
          rw [hv'] at hv
          cases hv
      · simp only [Option.map_some']
        rw [rget, if_pos rfl]
    · have hcc : c ∈ cs := by
        rcases List.mem_cons.mp hc with h | h
        · exact absurd h.symm he
        · exact h
      rcases hv : rget r c₀ with _ | v
      · simp only [Option.map_none']
        exact rget_selectRow hcc
      · simp only [Option.map_some']
        rw [rget, if_neg he]
        exact rget_selectRow hcc

theorem leadsB_self (p x : String) : leadsB p (p ++ x) = true := by
  rw [leadsB, String.data_append]
  exact leadsWith_self_append _ _

theorem ne_of_not_leadsB {p s : String} (h : leadsB p s = false) :
    ∀ x : String, p ++ x ≠ s := by
  intro x he
  rw [← he, leadsB_self] at h
  cases h

theorem leads_head_eq : ∀ {a b : Char} {p q l : List Char},
    leadsWith (a :: p) l = true → leadsWith (b :: q) l = true → a = b := by
  intro a b p q l h1 h2
  cases l with
  | nil => cases h1
  | cons x t =>
    rw [leadsWith, Bool.and_eq_true, decide_eq_true_eq] at h1 h2
    rw [h1.1, h2.1]

theorem leads_clash {p q : String} {s : String}
    (hpq : p.data.head? ≠ q.data.head?)
    (hp : p.data ≠ []) (hq : q.data ≠ [])
    (h1 : leadsB p s = true) : leadsB q s = false := by
  rcases hdp : p.data with _ | ⟨a, pt⟩
  · exact absurd hdp hp
  rcases hdq : q.data with _ | ⟨b, qt⟩
  · exact absurd hdq hq
  rw [leadsB, hdp] at h1
  rw [leadsB, hdq]
  by_cases h2 : leadsWith (b :: qt) s.data = true
  · have := leads_head_eq h1 h2
    rw [hdp, hdq] at hpq
    simp only [List.head?_cons] at hpq
    exact absurd (congrArg some this) hpq
  · exact Bool.eq_false_iff.mpr h2

theorem findAssoc_none_of {c : String} :
    ∀ {m : List (String × String)}, (∀ pm ∈ m, pm.1 ≠ c) →
    findAssoc c m = Option.none
  | [], _ => rfl
  | pm :: t, hall => by
    rw [findAssoc, if_neg (hall pm (List.mem_cons_self _ _))]
    exact findAssoc_none_of (fun q hq => hall q (List.mem_cons_of_mem _ hq))

theorem rename_vals_not_votes :
    ∀ pm ∈ COLUMN_RENAME_MAP, leadsB "votes_" pm.2 = false := by decide

theorem rename_keys_not_votes :
    ∀ pm ∈ COLUMN_RENAME_MAP, leadsB "votes_" pm.1 = false := by decide

theorem rename_keys_not_candidate :
    ∀ pm ∈ COLUMN_RENAME_MAP, leadsB "candidate_" pm.1 = false := by decide

theorem rename_vals_keys :
    ∀ pm ∈ COLUMN_RENAME_MAP, pm.2 ≠ "maz" ∧ pm.2 ≠ "taz" ∧
      pm.2 ≠ "sorsz" ∧ (pm.2 = "constituency_code" → pm.1 = "evk") := by
  decide

theorem renameCol_not_votes {c : String}
    (hc : leadsB "votes_" c = false) :
    leadsB "votes_" (renameCol COLUMN_RENAME_MAP c) = false := by
  rw [renameCol]
  rcases hf : findAssoc c COLUMN_RENAME_MAP with _ | v
  · simpa using hc
  · simp only [Option.getD_some]
    exact rename_vals_not_votes _ (findAssoc_mem hf)

theorem renameCol_id_of_leads {c p : String}
    (hpk : ∀ pm ∈ COLUMN_RENAME_MAP, leadsB p pm.1 = false)
    (h : leadsB p c = true) : renameCol COLUMN_RENAME_MAP c = c := by
  rw [renameCol, findAssoc_none_of]
  · rfl
  · intro pm hpm he
    have := hpk pm hpm
    rw [he, h] at this
    cases this

theorem stationRows_cols {pairs : List (Nat × Nat)} {sf : SzkFetch} :
    ∀ c ∈ (dfOfRows (stationRows pairs sf)).cols,
    c ∈ INFO_HEAD ∨ leadsB "letszam_" c = true := by
  intro c hc
  rw [dfOfRows] at hc
  rw [mem_dedupFirst] at hc
  obtain ⟨row, hrow, hk⟩ := List.mem_flatMap.mp hc
  obtain ⟨p, _, hrow⟩ := List.mem_flatMap.mp hrow
  rcases hsf : sf p.1 p.2 with _ | szs
  · rw [hsf] at hrow
    simp at hrow
  · rw [hsf] at hrow
    obtain ⟨st, _, hrow⟩ := List.mem_map.mp hrow
    subst hrow
    rw [rkeys, szkRowOf, List.map_append, List.map_map] at hk
    rcases List.mem_append.mp hk with hk | hk
    · left
      simpa [INFO_HEAD] using hk
    · right
      obtain ⟨pr, _, he⟩ := List.mem_map.mp hk
      simp only [Function.comp] at he
      rw [← he]
      exact leadsB_self _ _

theorem baseRows_cols {pairs : List (Nat × Nat)} {sf : SzkFetch}
    {jf : JkvFetch} :
    ∀ c ∈ (dfOfRows (baseRows pairs sf jf)).cols,
    c ∈ KEY4 ∨ c ∈ INFO_TAIL := by
  intro c hc
  rw [dfOfRows] at hc
  rw [mem_dedupFirst] at hc
  obtain ⟨row, hrow, hk⟩ := List.mem_flatMap.mp hc
  obtain ⟨p, _, hrow⟩ := List.mem_flatMap.mp hrow
  rcases hsf : sf p.1 p.2 with _ | szs
  · rw [hsf] at hrow
    simp at hrow
  · rw [hsf] at hrow
    rcases hjf : jf p.1 p.2 with _ | recs
    · rw [hjf] at hrow
      simp at hrow
    · rw [hjf] at hrow
      obtain ⟨rec, _, hrow⟩ := List.mem_map.mp hrow
      subst hrow
      rw [rkeys, baseRowOf, List.map_append] at hk
      rcases List.mem_append.mp hk with hk | hk
      · left
        simpa [KEY4, keyRowOf] using hk
      · right
        simpa [INFO_TAIL] using hk

theorem pivotColNames_leads {L : List Row} {colc : String}
    (hrgetc : ∀ rr ∈ L, ∃ cv, rget rr colc = some (Val.vs cv) ∧
      leadsB "votes_" cv = true) :
    ∀ c ∈ pivotColNames L colc, leadsB "votes_" c = true := by
  intro c hc
  rw [pivotColNames, mem_dedupFirst] at hc
  obtain ⟨rr, hrr, hmatch⟩ := List.mem_filterMap.mp hc
  obtain ⟨cv, hcv, hlead⟩ := hrgetc rr hrr
  rw [hcv] at hmatch
  simp only [Option.some_inj] at hmatch
  subst hmatch
  exact hlead

theorem candRows_rgetc {eg : List Cand} {pairs : List (Nat × Nat)}
    {sf : SzkFetch} {jf : JkvFetch} :
    ∀ rr ∈ candRows eg pairs sf jf, ∃ cv,
      rget rr "party_col" = some (Val.vs cv) ∧ leadsB "votes_" cv = true := by
  intro rr hrr
  obtain ⟨m, t, s, e, cv, vv, hsh, hlead⟩ := candRows_shape hrr
  subst hsh
  exact ⟨cv, shape_rget_colc (by decide) (by decide) (by decide) (by decide),
    hlead⟩

theorem listRows_rgetc {lk : List Lista} {pairs : List (Nat × Nat)}
    {sf : SzkFetch} {jf : JkvFetch} :
    ∀ rr ∈ listRows lk pairs sf jf, ∃ cv,
      rget rr "list_col" = some (Val.vs cv) ∧ leadsB "votes_" cv = true := by
  intro rr hrr
  obtain ⟨m, t, s, e, cv, vv, hsh, hlead⟩ := listRows_shape hrr
  subst hsh
  exact ⟨cv, shape_rget_colc (by decide) (by decide) (by decide) (by decide),
    hlead⟩

theorem candMeta_rget_col (c : Cand) :
    rget (candMetaRowOf c) "col" = some (Val.vs ("candidate_" ++
      slugifyStr (canonical_party_name (c.jlcs_nev.getD "UNKNOWN")) ++
      "_name")) := rfl

theorem constColNames_leads (eg : List Cand) :
    ∀ c ∈ pivotColNames (eg.map candMetaRowOf) "col",
      leadsB "candidate_" c = true := by
  intro c hc
  rw [pivotColNames, mem_dedupFirst] at hc
  obtain ⟨rr, hrr, hmatch⟩ := List.mem_filterMap.mp hc
  obtain ⟨cd, _, hcd⟩ := List.mem_map.mp hrr
  subst hcd
  rw [candMeta_rget_col] at hmatch
  simp only [Option.some_inj] at hmatch
  subst hmatch
  exact leads_candidate_col _

theorem constDF_cols {eg : List Cand} {dfc : DF}
    (h : build_constituency_id_mapping eg = some dfc) :
    ∀ c ∈ dfc.cols, c = "maz" ∨ c = "evk" ∨ c = "constituency_id" ∨
      leadsB "candidate_" c = true := by
  rw [build_constituency_id_mapping] at h
  intro c hc
  rw [mergeDF_cols h] at hc
  rcases List.mem_append.mp hc with hc | hc
  · rw [dfOfRows, mem_dedupFirst] at hc
    obtain ⟨row, hrow, hk⟩ := List.mem_flatMap.mp hc
    obtain ⟨q, _, hq⟩ := List.mem_map.mp hrow
    subst hq
    simp only [rkeys, List.map_cons, List.map_nil, List.mem_cons,
      List.mem_singleton, List.not_mem_nil, or_false] at hk
    rcases hk with hk | hk | hk <;> simp [hk]
  · have hc' := List.mem_of_mem_filter hc
    by_cases he : (eg.map candMetaRowOf).isEmpty
    · rw [if_pos he] at hc'
      simp only [List.mem_cons, List.mem_singleton, List.not_mem_nil,
        or_false] at hc'
      rcases hc' with hc' | hc' <;> simp [hc']
    · rw [if_neg he] at hc'
      rw [pivot_table] at hc'
      rcases List.mem_append.mp hc' with hc' | hc'
      · simp only [List.mem_cons, List.mem_singleton, List.not_mem_nil,
          or_false] at hc'
        rcases hc' with hc' | hc' <;> simp [hc']
      · exact Or.inr (Or.inr (Or.inr (constColNames_leads eg c hc')))

theorem info_head_not_votes :
    ∀ c ∈ INFO_HEAD, leadsB "votes_" c = false := by decide

theorem info_tail_not_votes :
    ∀ c ∈ INFO_TAIL, leadsB "votes_" c = false := by decide

theorem leads_letszam_not_votes {c : String}
    (h : leadsB "letszam_" c = true) : leadsB "votes_" c = false :=
  leads_clash (by decide) (by decide) (by decide) h

theorem leads_candidate_not_votes {c : String}
    (h : leadsB "candidate_" c = true) : leadsB "votes_" c = false :=
  leads_clash (by decide) (by decide) (by decide) h

theorem infoColsOf_sub {cols : List String} :
    ∀ c ∈ infoColsOf cols, c ∈ cols := by
  intro c hc
  rw [infoColsOf] at hc
  have := List.mem_filter.mp hc
  simpa using this.2

theorem infoColsOf_fam {cols : List String} :
    ∀ c ∈ infoColsOf cols,
      c ∈ INFO_HEAD ∨ leadsB "letszam_" c = true ∨ c ∈ INFO_TAIL := by
  intro c hc
  rw [infoColsOf] at hc
  have hm := (List.mem_filter.mp hc).1
  rcases List.mem_append.mp hm with hm | hm
  · rcases List.mem_append.mp hm with hm | hm
    · exact Or.inl hm
    · exact Or.inr (Or.inl (List.of_mem_filter hm))
  · exact Or.inr (Or.inr hm)

/-- Claim C5 (amended): for every run that returns output tables, the
info table's column set is a subset of the results table's column set
and contains no column starting with `votes_`; the subset is strict
whenever the results table has at least one `votes_` column (i.e.
whenever any vote line item was ingested). Strictness can fail — see
the counterexample — when a run produces rows but no vote line items,
so "strict subset" does not hold for every non-empty run. -/
theorem C5_info_columns_amended (telep : List TelepRow) (eg : List Cand)
    (lk : List Lista) (sf : SzkFetch) (jf : JkvFetch) (res inf : DF)
    (hb : build_df_from_all_pairs telep eg lk sf jf = some (res, inf)) :
    (∀ c ∈ inf.cols, c ∈ res.cols) ∧
    (∀ c ∈ inf.cols, leadsB "votes_" c = false) ∧
    ((∃ c ∈ res.cols, leadsB "votes_" c = true) →
      ∃ c ∈ res.cols, ¬ c ∈ inf.cols) := by
  rw [build_df_from_all_pairs] at hb
  obtain ⟨dfc, hcon, hb⟩ := Option.bind_eq_some.mp hb
  dsimp only at hb
  by_cases hemp : (dfOfRows (stationRows (pairsOf telep) sf)).rows.isEmpty
  · rw [if_pos hemp] at hb
    simp only [Option.some_inj, Prod.mk.injEq] at hb
    obtain ⟨h1, h2⟩ := hb
    subst h1
    subst h2
    refine ⟨?_, ?_, ?_⟩
    · intro c hc
      simp [dfOfRows, dedupFirst, dedupFirstAux] at hc
    · intro c hc
      simp [dfOfRows, dedupFirst, dedupFirstAux] at hc
    · rintro ⟨c, hc, _⟩
      simp [dfOfRows, dedupFirst, dedupFirstAux] at hc
  · rw [if_neg hemp] at hb
    obtain ⟨m1, hm1, hb⟩ := Option.bind_eq_some.mp hb
    obtain ⟨m2, hm2, hb⟩ := Option.bind_eq_some.mp hb
    obtain ⟨m3, hm3, hb⟩ := Option.bind_eq_some.mp hb
    obtain ⟨r4, hr4, hb⟩ := Option.bind_eq_some.mp hb
    obtain ⟨i4, hi4, hb⟩ := Option.bind_eq_some.mp hb
    simp only [Option.some_inj, Prod.mk.injEq] at hb
    obtain ⟨hres, hinf⟩ := hb
    subst hres
    subst hinf
    have hm1fam : ∀ c ∈ m1.cols, c ∈ INFO_HEAD ∨
        leadsB "letszam_" c = true ∨ c ∈ INFO_TAIL := by
      rw [mergeDF_cols hm1]
      intro c hc
      rcases List.mem_append.mp hc with hc | hc
      · rcases stationRows_cols c hc with h | h
        · exact Or.inl h
        · exact Or.inr (Or.inl h)
      · have hnk := List.of_mem_filter hc
        simp only [decide_eq_true_eq] at hnk
        rcases baseRows_cols c (List.mem_of_mem_filter hc) with h | h
        · exact absurd h hnk
        · exact Or.inr (Or.inr h)
    have hm2fam : ∀ c ∈ m2.cols, c ∈ m1.cols ∨ leadsB "votes_" c = true := by
      by_cases hcl : (candRows eg (pairsOf telep) sf jf).isEmpty
      · rw [if_pos hcl] at hm2
        by_cases hw : (dfOfRows []).rows.isEmpty
        · rw [if_pos hw] at hm2
          cases Option.some_inj.mp hm2
          exact fun c hc => Or.inl hc
        · exact absurd rfl hw
      · rw [if_neg hcl] at hm2
        by_cases hw : (pivot_table (candRows eg (pairsOf telep) sf jf)
            KEY4 "party_col" "votes" aggSum).rows.isEmpty
        · rw [if_pos hw] at hm2
          cases Option.some_inj.mp hm2
          exact fun c hc => Or.inl hc
        · rw [if_neg hw] at hm2
          rw [mergeDF_cols hm2]
          intro c hc
          rcases List.mem_append.mp hc with hc | hc
          · exact Or.inl hc
          · have hnk := List.of_mem_filter hc
            simp only [decide_eq_true_eq] at hnk
            have hcw := List.mem_of_mem_filter hc
            rw [pivot_table] at hcw
            rcases List.mem_append.mp hcw with hcw | hcw
            · exact absurd hcw hnk
            · exact Or.inr (pivotColNames_leads candRows_rgetc c hcw)
    have hm3fam : ∀ c ∈ m3.cols, c ∈ m2.cols ∨ leadsB "votes_" c = true := by
      by_cases hcl : (listRows lk (pairsOf telep) sf jf).isEmpty
      · rw [if_pos hcl] at hm3
        by_cases hw : (dfOfRows []).rows.isEmpty
        · rw [if_pos hw] at hm3
          cases Option.some_inj.mp hm3
          exact fun c hc => Or.inl hc
        · exact absurd rfl hw
      · rw [if_neg hcl] at hm3
        by_cases hw : (pivot_table (listRows lk (pairsOf telep) sf jf)
            KEY4 "list_col" "votes" aggSum).rows.isEmpty
        · rw [if_pos hw] at hm3
          cases Option.some_inj.mp hm3
          exact fun c hc => Or.inl hc
        · rw [if_neg hw] at hm3
          rw [mergeDF_cols hm3]
          intro c hc
          rcases List.mem_append.mp hc with hc | hc
          · exact Or.inl hc
          · have hnk := List.of_mem_filter hc
            simp only [decide_eq_true_eq] at hnk
            have hcw := List.mem_of_mem_filter hc
            rw [pivot_table] at hcw
            rcases List.mem_append.mp hcw with hcw | hcw
            · exact absurd hcw hnk
            · exact Or.inr (pivotColNames_leads listRows_rgetc c hcw)
    have hm3fin : ∀ c ∈ m3.cols, leadsB "votes_" c = false →
        (c ∈ INFO_HEAD ∨ leadsB "letszam_" c = true ∨ c ∈ INFO_TAIL) := by
      intro c hc hnv
      rcases hm3fam c hc with h | h
      · rcases hm2fam c h with h' | h'
        · exact hm1fam c h'
        · rw [h'] at hnv
          cases hnv
      · rw [h] at hnv
        cases hnv
    have hdfcf : ∀ c ∈ dfc.cols.filter
        (fun c => decide (c ∉ (["maz", "evk"] : List String))),
        c = "constituency_id" ∨ leadsB "candidate_" c = true := by
      intro c hc
      have hnk := List.of_mem_filter hc
      simp only [decide_eq_true_eq] at hnk
      rcases constDF_cols hcon c (List.mem_of_mem_filter hc) with
        h | h | h | h
      · exact absurd (by simp [h]) hnk
      · exact absurd (by simp [h]) hnk
      · exact Or.inl h
      · exact Or.inr h
    have hinfnv : ∀ c ∈ (renameDF COLUMN_RENAME_MAP i4).cols,
        leadsB "votes_" c = false := by
      rw [renameDF_cols, mergeDF_cols hi4]
      intro c hc
      obtain ⟨c₀, hc₀, hcr⟩ := List.mem_map.mp hc
      subst hcr
      apply renameCol_not_votes
      rcases List.mem_append.mp hc₀ with hc₀ | hc₀
      · rcases infoColsOf_fam c₀ hc₀ with h | h | h
        · exact info_head_not_votes c₀ h
        · exact leads_letszam_not_votes h
        · exact info_tail_not_votes c₀ h
      · rcases hdfcf c₀ hc₀ with h | h
        · rw [h]
          decide
        · exact leads_candidate_not_votes h
    refine ⟨?_, hinfnv, ?_⟩
    · rw [renameDF_cols, renameDF_cols, mergeDF_cols hi4, mergeDF_cols hr4]
      intro c hc
      obtain ⟨c₀, hc₀, hcr⟩ := List.mem_map.mp hc
      subst hcr
      apply List.mem_map.mpr
      refine ⟨c₀, ?_, rfl⟩
      rcases List.mem_append.mp hc₀ with hc₀ | hc₀
      · exact List.mem_append.mpr (Or.inl (infoColsOf_sub c₀ hc₀))
      · exact List.mem_append.mpr (Or.inr hc₀)
    · rintro ⟨c, hc, hlead⟩
      refine ⟨c, hc, fun hmem => ?_⟩
      rw [hinfnv c hmem] at hlead
      cases hlead

/-- C5 counterexample to strictness as literally claimed: one pair,
station fetch and results fetch both succeed, but the individual
record carries an empty `tetelek` list and the list record none at
all, so no vote line item exists. Both wide tables stay empty, both
output tables are non-empty, and every results column is also an info
column — the info columns are not a *strict* subset. -/
theorem C5_info_columns_counterexample :
    ((build_df_from_all_pairs [⟨1, 1⟩]
      [⟨1, "01", 11, some "MKKP", some "Teszt Elek"⟩] []
      (fun m t => if m = 1 && t = 1 then
        some [⟨1, some "Iskola", some "01", some "Pest 01",
          some "Fo utca 1", some 1, some 0, some 0, some 0,
          [("indulo", 500), ("osszesen", 510)]⟩]
        else Option.none)
      (fun m t => if m = 1 && t = 1 then
        some [⟨1, 1, 1,
          ⟨some 100, some 90, some 9000, some 88, some 2, some []⟩,
          ⟨some 100, some 90, some 9000, some 88, some 2,
            Option.none⟩⟩]
        else Option.none)).map
      (fun pr => !pr.1.rows.isEmpty && !pr.2.rows.isEmpty &&
        pr.1.cols.all (fun c => decide (c ∈ pr.2.cols)))) = some true := by
  decide

/-- Witness for the amended C5: on a concrete successful run the info
columns are a subset of the results columns and none of them starts
with `votes_`. -/
theorem C5_info_columns_amended_witness :
    ∃ res inf, build_df_from_all_pairs [⟨1, 1⟩]
      [⟨1, "01", 11, some "MKKP", some "Teszt Elek"⟩] []
      (fun m t => if m = 1 && t = 1 then
        some [⟨1, some "Iskola", some "01", some "Pest 01",
          some "Fo utca 1", some 1, some 0, some 0, some 0,
          [("indulo", 500), ("osszesen", 510)]⟩]
        else Option.none)
      (fun m t => if m = 1 && t = 1 then
        some [⟨1, 1, 1,
          ⟨some 100, some 90, some 9000, some 88, some 2,
            some [⟨11, some 100⟩]⟩,
          ⟨some 100, some 90, some 9000, some 88, some 2,
            Option.none⟩⟩]
        else Option.none) = some (res, inf) ∧
      (∀ c ∈ inf.cols, c ∈ res.cols) ∧
      (∀ c ∈ inf.cols, leadsB "votes_" c = false) := by
  have hs : (build_df_from_all_pairs [⟨1, 1⟩]
      [⟨1, "01", 11, some "MKKP", some "Teszt Elek"⟩] []
      (fun m t => if m = 1 && t = 1 then
        some [⟨1, some "Iskola", some "01", some "Pest 01",
          some "Fo utca 1", some 1, some 0, some 0, some 0,
          [("indulo", 500), ("osszesen", 510)]⟩]
        else Option.none)
      (fun m t => if m = 1 && t = 1 then
        some [⟨1, 1, 1,
          ⟨some 100, some 90, some 9000, some 88, some 2,
            some [⟨11, some 100⟩]⟩,
          ⟨some 100, some 90, some 9000, some 88, some 2,
            Option.none⟩⟩]
        else Option.none)).isSome = true := by decide
  obtain ⟨⟨res, inf⟩, hb⟩ := Option.isSome_iff_exists.mp hs
  obtain ⟨h1, h2, _⟩ := C5_info_columns_amended _ _ _ _ _ res inf hb
  exact ⟨res, inf, hb, h1, h2⟩

/- ------------------------------------------------------------------ -/
/- C9: out-of-station result keys never reach the output              -/
/- ------------------------------------------------------------------ -/

theorem fst_mem_of_mem {pr : String × Val} {r : Row} (h : pr ∈ r) :
    pr.1 ∈ rkeys r := List.mem_map_of_mem Prod.fst h

theorem rkeys_szkRowOf (m t : Nat) (st : Station) :
    rkeys (szkRowOf m t st) =
      ["maz", "taz", "sorsz", "szk_nev", "evk", "evk_nev", "cim",
       "akadaly", "szamlKijelolt", "atjKijelolt", "telepSzintu"] ++
      st.letszam.map (fun p => "letszam_" ++ p.1) := by
  rw [szkRowOf, rkeys, List.map_append, List.map_map]
  rfl

theorem szkRowOf_ne_cc (m t : Nat) (st : Station) :
    ∀ pr ∈ szkRowOf m t st, pr.1 ≠ "constituency_code" := by
  intro pr hpr he
  have hk := fst_mem_of_mem hpr
  rw [rkeys_szkRowOf, he] at hk
  rcases List.mem_append.mp hk with hx | hx
  · exact absurd hx (by decide)
  · obtain ⟨p2, _, he2⟩ := List.mem_map.mp hx
    have he3 : "letszam_" ++ p2.1 = "constituency_code" := he2
    have hl := leadsB_self "letszam_" p2.1
    rw [he3] at hl
    exact absurd hl (by decide)

theorem stationRows_mem {pairs : List (Nat × Nat)} {sf : SzkFetch} :
    ∀ lr ∈ stationRows pairs sf, anchoredRow pairs sf lr := by
  intro lr hlr
  obtain ⟨p, hp, hmem⟩ := List.mem_flatMap.mp hlr
  rcases hsf : sf p.1 p.2 with _ | szs
  · rw [hsf] at hmem
    simp at hmem
  · rw [hsf] at hmem
    obtain ⟨st, hst, he⟩ := List.mem_map.mp hmem
    subst he
    exact ⟨p, hp, szs, hsf, st, hst,
      rget_append_of_some rfl, rget_append_of_some rfl,
      rget_append_of_some rfl, rget_append_of_some rfl,
      szkRowOf_ne_cc p.1 p.2 st⟩

theorem anchored_append {pairs : List (Nat × Nat)} {sf : SzkFetch}
    {row ext : Row} (h : anchoredRow pairs sf row)
    (hext : ∀ pr ∈ ext, pr.1 ≠ "constituency_code") :
    anchoredRow pairs sf (row ++ ext) := by
  obtain ⟨p, hp, szs, hsf, st, hst, h1, h2, h3, h4, h5⟩ := h
  exact ⟨p, hp, szs, hsf, st, hst,
    rget_append_of_some h1, rget_append_of_some h2,
    rget_append_of_some h3, rget_append_of_some h4,
    fun pr hpr => (List.mem_append.mp hpr).elim (h5 pr) (hext pr)⟩

theorem mergeDF_anchored {pairs : List (Nat × Nat)} {sf : SzkFetch}
    {l r : DF} {onc : List String} {m : DF}
    (h : mergeDF l r onc = some m)
    (hl : ∀ row ∈ l.rows, anchoredRow pairs sf row)
    (hr : ∀ rr ∈ r.rows, ∀ pr ∈ rr, pr.1 ≠ "constituency_code") :
    ∀ row ∈ m.rows, anchoredRow pairs sf row := by
  intro row hrow
  obtain ⟨lr, hlr, hcase⟩ := mergeDF_rows h row hrow
  rcases hcase with he | ⟨rr, hrr, he⟩
  · rw [he]
    exact hl lr hlr
  · rw [he]
    exact anchored_append (hl lr hlr)
      (fun pr hpr => hr rr hrr pr (List.mem_of_mem_filter hpr))

theorem rkeys_baseRowOf (szs : List Station) (rec : JkvRec) :
    rkeys (baseRowOf szs rec) =
      ["maz", "taz", "sorsz", "evk", "vp_osszes_egyeni",
       "szavazott_osszesen_egyeni", "szavazott_osszesen_szaz_egyeni",
       "szl_ervenyes_egyeni", "szl_ervenytelen_egyeni",
       "vp_osszes_lista", "szavazott_osszesen_lista",
       "szavazott_osszesen_szaz_lista", "szl_ervenyes_lista",
       "szl_ervenytelen_lista"] := rfl

theorem baseRows_ne_cc {pairs : List (Nat × Nat)} {sf : SzkFetch}
    {jf : JkvFetch} :
    ∀ rr ∈ baseRows pairs sf jf, ∀ pr ∈ rr,
      pr.1 ≠ "constituency_code" := by
  intro rr hrr
  obtain ⟨p, _, hmem⟩ := List.mem_flatMap.mp hrr
  rcases hsf : sf p.1 p.2 with _ | szs
  · rw [hsf] at hmem
    simp at hmem
  · rw [hsf] at hmem
    rcases hjf : jf p.1 p.2 with _ | recs
    · rw [hjf] at hmem
      simp at hmem
    · rw [hjf] at hmem
      obtain ⟨rec, _, he⟩ := List.mem_map.mp hmem
      subst he
      intro pr hpr he2
      have hk := fst_mem_of_mem hpr
      rw [rkeys_baseRowOf, he2] at hk
      exact absurd hk (by decide)

theorem pivotRow_keys {agg : List Val → Val} {long : List Row}
    {idx : List String} {colc valc : String} {k : List (Option Val)} :
    ∀ pr ∈ pivotRowOf agg long idx colc valc k,
      pr.1 ∈ idx ∨ pr.1 ∈ pivotColNames long colc := by
  intro pr hpr
  rw [pivotRowOf] at hpr
  rcases List.mem_append.mp hpr with hx | hx
  · exact Or.inl (idxCells_keys pr hx)
  · obtain ⟨c, hc, hpc⟩ := List.mem_filterMap.mp hx
    rcases hv : pivotCell agg long idx colc valc k c with _ | v
    · rw [hv] at hpc
      cases hpc
    · rw [hv] at hpc
      cases hpc
      exact Or.inr hc

theorem pivot_rows_keys {long : List Row} {idx : List String}
    {colc valc : String} {agg : List Val → Val} :
    ∀ r ∈ (pivot_table long idx colc valc agg).rows, ∀ pr ∈ r,
      pr.1 ∈ idx ∨ pr.1 ∈ pivotColNames long colc := by
  intro r hr pr hpr
  obtain ⟨k, _, he⟩ := List.mem_map.mp hr
  subst he
  exact pivotRow_keys pr hpr

theorem candWide_ne_cc {eg : List Cand} {pairs : List (Nat × Nat)}
    {sf : SzkFetch} {jf : JkvFetch} :
    ∀ rr ∈ (pivot_table (candRows eg pairs sf jf) KEY4 "party_col"
      "votes" aggSum).rows, ∀ pr ∈ rr, pr.1 ≠ "constituency_code" := by
  intro rr hrr pr hpr he
  rcases pivot_rows_keys rr hrr pr hpr with h | h
  · rw [he] at h
    exact absurd h (by decide)
  · have hl := pivotColNames_leads candRows_rgetc pr.1 h
    rw [he] at hl
    exact absurd hl (by decide)

theorem listWide_ne_cc {lk : List Lista} {pairs : List (Nat × Nat)}
    {sf : SzkFetch} {jf : JkvFetch} :
    ∀ rr ∈ (pivot_table (listRows lk pairs sf jf) KEY4 "list_col"
      "votes" aggSum).rows, ∀ pr ∈ rr, pr.1 ≠ "constituency_code" := by
  intro rr hrr pr hpr he
  rcases pivot_rows_keys rr hrr pr hpr with h | h
  · rw [he] at h
    exact absurd h (by decide)
  · have hl := pivotColNames_leads listRows_rgetc pr.1 h
    rw [he] at hl
    exact absurd hl (by decide)

theorem constRows_ne_cc {eg : List Cand} {dfc : DF}
    (h : build_constituency_id_mapping eg = some dfc) :
    ∀ row ∈ dfc.rows, ∀ pr ∈ row, pr.1 ≠ "constituency_code" := by
  rw [build_constituency_id_mapping] at h
  intro row hrow pr hpr
  obtain ⟨lr, hlr, hcase⟩ := mergeDF_rows h row hrow
  have hlrk : ∀ p2 ∈ lr, p2.1 ≠ "constituency_code" := by
    obtain ⟨kk, _, he⟩ := List.mem_map.mp hlr
    intro p2 hp2 he2
    rw [← he] at hp2
    have hk : p2.1 ∈ (["maz", "evk", "constituency_id"] : List String) :=
      fst_mem_of_mem hp2
    rw [he2] at hk
    exact absurd hk (by decide)
  rcases hcase with rfl | ⟨rr, hrr, rfl⟩
  · exact hlrk pr hpr
  · rcases List.mem_append.mp hpr with hx | hx
    · exact hlrk pr hx
    · have hprr := List.mem_of_mem_filter hx
      by_cases hme : (eg.map candMetaRowOf).isEmpty
      · rw [if_pos hme] at hrr
        simp at hrr
      · rw [if_neg hme] at hrr
        intro he
        rcases pivot_rows_keys rr hrr pr hprr with h2 | h2
        · rw [he] at h2
          exact absurd h2 (by decide)
        · have hl := constColNames_leads eg pr.1 h2
          rw [he] at hl
          exact absurd hl (by decide)

theorem select_anchored {pairs : List (Nat × Nat)} {sf : SzkFetch}
    {df : DF} {cs : List String}
    (hdf : ∀ row ∈ df.rows, anchoredRow pairs sf row)
    (h1 : "maz" ∈ cs) (h2 : "taz" ∈ cs) (h3 : "sorsz" ∈ cs)
    (h4 : "evk" ∈ cs)
    (hcs : ∀ c ∈ cs, c ≠ "constituency_code") :
    ∀ srow ∈ (selectCols df cs).rows, anchoredRow pairs sf srow := by
  intro srow hsrow
  obtain ⟨row, hrow, he⟩ := List.mem_map.mp hsrow
  obtain ⟨p, hp, szs, hsf, st, hst, k1, k2, k3, k4, _⟩ := hdf row hrow
  subst he
  refine ⟨p, hp, szs, hsf, st, hst,
    (rget_selectRow h1).trans k1, (rget_selectRow h2).trans k2,
    (rget_selectRow h3).trans k3, (rget_selectRow h4).trans k4, ?_⟩
  intro pr hpr
  have hpr2 : pr ∈ cs.filterMap
      (fun c => (rget row c).map (fun v => (c, v))) := hpr
  obtain ⟨c, hc, hpc⟩ := List.mem_filterMap.mp hpr2
  rcases hv : rget row c with _ | v
  · rw [hv] at hpc
    cases hpc
  · rw [hv] at hpc
    cases hpc
    exact hcs c hc

theorem infoCols_ne_cc {cols : List String} :
    ∀ c ∈ infoColsOf cols, c ≠ "constituency_code" := by
  intro c hc he
  rcases infoColsOf_fam c hc with h | h | h
  · rw [he] at h
    exact absurd h (by decide)
  · rw [he] at h
    exact absurd h (by decide)
  · rw [he] at h
    exact absurd h (by decide)

theorem szk_key_cols {pairs : List (Nat × Nat)} {sf : SzkFetch}
    (hne : (stationRows pairs sf).isEmpty = false) :
    ∀ c ∈ KEY4, c ∈ (dfOfRows (stationRows pairs sf)).cols := by
  intro c hc
  rcases hl : stationRows pairs sf with _ | ⟨row, rest⟩
  · rw [hl] at hne
    cases hne
  · have hrow : row ∈ stationRows pairs sf := by
      rw [hl]
      exact List.mem_cons_self _ _
    obtain ⟨p, _, hmem⟩ := List.mem_flatMap.mp hrow
    rw [dfOfRows]
    rw [mem_dedupFirst]
    apply List.mem_flatMap.mpr
    refine ⟨row, List.mem_cons_self _ _, ?_⟩
    rcases hsf : sf p.1 p.2 with _ | szs
    · rw [hsf] at hmem
      simp at hmem
    · rw [hsf] at hmem
      obtain ⟨st, _, he⟩ := List.mem_map.mp hmem
      subst he
      rw [rkeys_szkRowOf]
      simp only [KEY4, List.mem_cons, List.not_mem_nil, or_false] at hc
      rcases hc with rfl|rfl|rfl|rfl <;>
        exact List.mem_append.mpr (Or.inl (by decide))

theorem renameCol_key_iff {c : String}
    (hc : c = "maz" ∨ c = "taz" ∨ c = "sorsz") :
    ∀ x : String, (renameCol COLUMN_RENAME_MAP x = c ↔ x = c) := by
  intro x
  constructor
  · intro he
    rw [renameCol] at he
    rcases hf : findAssoc x COLUMN_RENAME_MAP with _ | v
    · rw [hf] at he
      exact he
    · rw [hf] at he
      simp only [Option.getD_some] at he
      have hv := rename_vals_keys _ (findAssoc_mem hf)
      rcases hc with rfl | rfl | rfl
      · exact absurd he hv.1
      · exact absurd he hv.2.1
      · exact absurd he hv.2.2.1
  · intro he
    subst he
    rcases hc with rfl | rfl | rfl <;> decide

theorem renameCol_cc_iff {x : String} (hx : x ≠ "constituency_code") :
    (renameCol COLUMN_RENAME_MAP x = "constituency_code" ↔
      x = "evk") := by
  constructor
  · intro he
    rw [renameCol] at he
    rcases hf : findAssoc x COLUMN_RENAME_MAP with _ | v
    · rw [hf] at he
      exact absurd he hx
    · rw [hf] at he
      simp only [Option.getD_some] at he
      exact (rename_vals_keys _ (findAssoc_mem hf)).2.2.2 he
  · intro he
    subst he
    decide

theorem renamed_outKey {pairs : List (Nat × Nat)} {sf : SzkFetch}
    {row : Row} (h : anchoredRow pairs sf row) :
    ∃ p ∈ pairs, ∃ szs, sf p.1 p.2 = some szs ∧ ∃ st ∈ szs,
      outKey (renameRow COLUMN_RENAME_MAP row) = stKeyOf p.1 p.2 st := by
  obtain ⟨p, hp, szs, hsf, st, hst, k1, k2, k3, k4, h5⟩ := h
  refine ⟨p, hp, szs, hsf, st, hst, ?_⟩
  rw [outKey, stKeyOf]
  rw [rget_renameRow (fun pr _ => renameCol_key_iff (Or.inl rfl) pr.1),
    rget_renameRow (fun pr _ =>
      renameCol_key_iff (Or.inr (Or.inl rfl)) pr.1),
    rget_renameRow (fun pr _ =>
      renameCol_key_iff (Or.inr (Or.inr rfl)) pr.1),
    rget_renameRow (fun pr hpr => renameCol_cc_iff (h5 pr hpr))]
  rw [k1, k2, k3, k4]

/-- Claim C9: the pipeline's joins are left joins anchored on the
ingested station rows — a key quadruple (`maz`, `taz`, `sorsz`,
`evk`→`constituency_code`) that no fetched station contributes never
appears among the key cells of any row of either output table, so
result records whose key tuple matches no station row (including those
given an empty-string `evk` because their `sorsz` is absent from the
station document) are silently dropped. -/
theorem C9_orphan_results_dropped (telep : List TelepRow) (eg : List Cand)
    (lk : List Lista) (sf : SzkFetch) (jf : JkvFetch) (res inf : DF)
    (hb : build_df_from_all_pairs telep eg lk sf jf = some (res, inf))
    (q : List (Option Val))
    (hq : ∀ p ∈ pairsOf telep, ∀ st ∈ (sf p.1 p.2).getD [],
      stKeyOf p.1 p.2 st ≠ q) :
    (∀ r ∈ res.rows, outKey r ≠ q) ∧ (∀ r ∈ inf.rows, outKey r ≠ q) := by
  rw [build_df_from_all_pairs] at hb
  obtain ⟨dfc, hcon, hb⟩ := Option.bind_eq_some.mp hb
  dsimp only at hb
  by_cases hemp : (dfOfRows (stationRows (pairsOf telep) sf)).rows.isEmpty
  · rw [if_pos hemp] at hb
    simp only [Option.some_inj, Prod.mk.injEq] at hb
    obtain ⟨h1, h2⟩ := hb
    subst h1
    subst h2
    constructor
    · intro r hr
      simp [dfOfRows] at hr
    · intro r hr
      simp [dfOfRows] at hr
  · rw [if_neg hemp] at hb
    obtain ⟨m1, hm1, hb⟩ := Option.bind_eq_some.mp hb
    obtain ⟨m2, hm2, hb⟩ := Option.bind_eq_some.mp hb
    obtain ⟨m3, hm3, hb⟩ := Option.bind_eq_some.mp hb
    obtain ⟨r4, hr4, hb⟩ := Option.bind_eq_some.mp hb
    obtain ⟨i4, hi4, hb⟩ := Option.bind_eq_some.mp hb
    simp only [Option.some_inj, Prod.mk.injEq] at hb
    obtain ⟨hres, hinf⟩ := hb
    subst hres
    subst hinf
    have hszka : ∀ row ∈ (dfOfRows (stationRows (pairsOf telep) sf)).rows,
        anchoredRow (pairsOf telep) sf row := stationRows_mem
    have hkszk : ∀ c ∈ KEY4,
        c ∈ (dfOfRows (stationRows (pairsOf telep) sf)).cols :=
      szk_key_cols (Bool.eq_false_iff.mpr hemp)
    have hm1a : ∀ row ∈ m1.rows, anchoredRow (pairsOf telep) sf row :=
      mergeDF_anchored hm1 hszka baseRows_ne_cc
    have hkm1 : ∀ c ∈ KEY4, c ∈ m1.cols := by
      rw [mergeDF_cols hm1]
      exact fun c hc => List.mem_append.mpr (Or.inl (hkszk c hc))
    have hm2p : (∀ row ∈ m2.rows, anchoredRow (pairsOf telep) sf row) ∧
        (∀ c ∈ KEY4, c ∈ m2.cols) := by
      by_cases hcl : (candRows eg (pairsOf telep) sf jf).isEmpty
      · rw [if_pos hcl] at hm2
        by_cases hw : (dfOfRows []).rows.isEmpty
        · rw [if_pos hw] at hm2
          cases Option.some_inj.mp hm2
          exact ⟨hm1a, hkm1⟩
        · exact absurd rfl hw
      · rw [if_neg hcl] at hm2
        by_cases hw : (pivot_table (candRows eg (pairsOf telep) sf jf)
            KEY4 "party_col" "votes" aggSum).rows.isEmpty
        · rw [if_pos hw] at hm2
          cases Option.some_inj.mp hm2
          exact ⟨hm1a, hkm1⟩
        · rw [if_neg hw] at hm2
          refine ⟨mergeDF_anchored hm2 hm1a candWide_ne_cc, ?_⟩
          rw [mergeDF_cols hm2]
          exact fun c hc => List.mem_append.mpr (Or.inl (hkm1 c hc))
    have hm3p : (∀ row ∈ m3.rows, anchoredRow (pairsOf telep) sf row) ∧
        (∀ c ∈ KEY4, c ∈ m3.cols) := by
      by_cases hcl : (listRows lk (pairsOf telep) sf jf).isEmpty
      · rw [if_pos hcl] at hm3
        by_cases hw : (dfOfRows []).rows.isEmpty
        · rw [if_pos hw] at hm3
          cases Option.some_inj.mp hm3
          exact hm2p
        · exact absurd rfl hw
      · rw [if_neg hcl] at hm3
        by_cases hw : (pivot_table (listRows lk (pairsOf telep) sf jf)
            KEY4 "list_col" "votes" aggSum).rows.isEmpty
        · rw [if_pos hw] at hm3
          cases Option.some_inj.mp hm3
          exact hm2p
        · rw [if_neg hw] at hm3
          refine ⟨mergeDF_anchored hm3 hm2p.1 listWide_ne_cc, ?_⟩
          rw [mergeDF_cols hm3]
          exact fun c hc => List.mem_append.mpr (Or.inl (hm2p.2 c hc))
    have hsel4 : ∀ c ∈ KEY4, c ∈ infoColsOf m3.cols := by
      intro c hc
      rw [infoColsOf]
      refine List.mem_filter.mpr ⟨?_, decide_eq_true (hm3p.2 c hc)⟩
      refine List.mem_append.mpr (Or.inl (List.mem_append.mpr (Or.inl ?_)))
      simp only [KEY4, List.mem_cons, List.not_mem_nil, or_false] at hc
      rcases hc with rfl|rfl|rfl|rfl <;> decide
    have hr4a : ∀ row ∈ r4.rows, anchoredRow (pairsOf telep) sf row :=
      mergeDF_anchored hr4 hm3p.1 (constRows_ne_cc hcon)
    have hi4a : ∀ row ∈ i4.rows, anchoredRow (pairsOf telep) sf row :=
      mergeDF_anchored hi4
        (select_anchored hm3p.1 (hsel4 "maz" (by decide))
          (hsel4 "taz" (by decide)) (hsel4 "sorsz" (by decide))
          (hsel4 "evk" (by decide)) infoCols_ne_cc)
        (constRows_ne_cc hcon)
    constructor
    · intro r hr
      rw [renameDF_rows] at hr
      obtain ⟨row, hrow, he⟩ := List.mem_map.mp hr
      obtain ⟨p, hp, szs, hsf, st, hst, hkey⟩ :=
        renamed_outKey (hr4a row hrow)
      rw [← he, hkey]
      have hst2 : st ∈ (sf p.1 p.2).getD [] := by
        rw [hsf]
        exact hst
      exact hq p hp st hst2
    · intro r hr
      rw [renameDF_rows] at hr
      obtain ⟨row, hrow, he⟩ := List.mem_map.mp hr
      obtain ⟨p, hp, szs, hsf, st, hst, hkey⟩ :=
        renamed_outKey (hi4a row hrow)
      rw [← he, hkey]
      have hst2 : st ∈ (sf p.1 p.2).getD [] := by
        rw [hsf]
        exact hst
      exact hq p hp st hst2

/-- Witness for C9: on a concrete run, a key quadruple differing from
the single ingested station's key appears in neither output table. -/
theorem C9_orphan_results_dropped_witness :
    ∃ res inf, build_df_from_all_pairs [⟨1, 1⟩]
      [⟨1, "01", 11, some "MKKP", some "Teszt Elek"⟩] []
      (fun m t => if m = 1 && t = 1 then
        some [⟨1, some "Iskola", some "01", some "Pest 01",
          some "Fo utca 1", some 1, some 0, some 0, some 0,
          [("indulo", 500), ("osszesen", 510)]⟩]
        else Option.none)
      (fun m t => if m = 1 && t = 1 then
        some [⟨1, 1, 1,
          ⟨some 100, some 90, some 9000, some 88, some 2,
            some [⟨11, some 100⟩]⟩,
          ⟨some 100, some 90, some 9000, some 88, some 2,
            Option.none⟩⟩]
        else Option.none) = some (res, inf) ∧
      (∀ r ∈ res.rows, outKey r ≠
        [some (Val.vi 2), some (Val.vi 2), some (Val.vi 1),
         some (Val.vs "01")]) ∧
      (∀ r ∈ inf.rows, outKey r ≠
        [some (Val.vi 2), some (Val.vi 2), some (Val.vi 1),
         some (Val.vs "01")]) := by
  have hs : (build_df_from_all_pairs [⟨1, 1⟩]
      [⟨1, "01", 11, some "MKKP", some "Teszt Elek"⟩] []
      (fun m t => if m = 1 && t = 1 then
        some [⟨1, some "Iskola", some "01", some "Pest 01",
          some "Fo utca 1", some 1, some 0, some 0, some 0,
          [("indulo", 500), ("osszesen", 510)]⟩]
        else Option.none)
      (fun m t => if m = 1 && t = 1 then
        some [⟨1, 1, 1,
          ⟨some 100, some 90, some 9000, some 88, some 2,
            some [⟨11, some 100⟩]⟩,
          ⟨some 100, some 90, some 9000, some 88, some 2,
            Option.none⟩⟩]
        else Option.none)).isSome = true := by decide
  obtain ⟨⟨res, inf⟩, hb⟩ := Option.isSome_iff_exists.mp hs
  have h := C9_orphan_results_dropped _ _ _ _ _ res inf hb
    [some (Val.vi 2), some (Val.vi 2), some (Val.vi 1),
     some (Val.vs "01")] (by decide)
  exact ⟨res, inf, hb, h.1, h.2⟩
